import Mathlib

/- Verification development for the panel perforation layout engine of src/main.py.
   Real arithmetic of the source (Python floats) is modelled exactly over the
   rationals; the value math.sqrt(2) is an explicit parameter named s2 throughout,
   instantiated with the floating-point approximation where a concrete run is needed. -/

/-- Grouping configuration, mirroring the value under the key named grouping in a
pattern entry: a starting column count and the fixed inter-group gap. -/
structure Grouping where
  col_count : ℕ
  gap_size : ℚ
deriving DecidableEq

/-- One entry of the PATTERN_MAP dictionary of src/main.py. Optional fields mirror
keys that are present only for some patterns and are read with getD defaults just
as the source reads them with dict.get. -/
structure PatternConfig where
  pattern : String
  hole_size : Option ℚ
  hole_diameter : Option ℚ
  slot_length : Option ℚ
  slot_width : Option ℚ
  spacing : ℚ
  offset : String
  grouping : Option Grouping
deriving DecidableEq

/-- The preset named Squares 10x10mm. -/
def squares10Cfg : PatternConfig :=
  ⟨"square", some 10, none, none, none, 10, "half", none⟩

/-- The preset named Squares Grouped. -/
def squaresGroupedCfg : PatternConfig :=
  ⟨"square", some 10, none, none, none, 10, "none", some ⟨8, 70⟩⟩

/-- The preset named Check 10x10mm. -/
def check10Cfg : PatternConfig :=
  ⟨"diamond", some 10, none, none, none, 5.1, "half", none⟩

/-- The preset named Round hole 10mm. -/
def round10Cfg : PatternConfig :=
  ⟨"circle", none, some 10, none, none, 10, "half", none⟩

/-- The preset named Slotted hole 35x10mm. -/
def slot35Cfg : PatternConfig :=
  ⟨"slot", none, none, some 35, some 10, 10, "half", none⟩

/-- The PATTERN_MAP dictionary as an association list. -/
def PATTERN_MAP : List (String × PatternConfig) :=
  [("Squares 10x10mm", squares10Cfg),
   ("Squares Grouped", squaresGroupedCfg),
   ("Check 10x10mm", check10Cfg),
   ("Round hole 10mm", round10Cfg),
   ("Slotted hole 35x10mm", slot35Cfg)]

/-- The config lookup of generate_dxf, line 228 of src/main.py:
PATTERN_MAP.get(raw_pattern, PATTERN_MAP of the squares preset). -/
def resolveConfig (name : String) : PatternConfig :=
  ((PATTERN_MAP.find? (fun p => p.1 = name)).map Prod.snd).getD squares10Cfg

/-- The constant TARGET_MIN_MARGIN of calculate_layout_params, line 71. -/
def TARGET_MIN_MARGIN : ℚ := 17

/-- The pitch along x chosen at lines 74-81 of src/main.py. -/
def pitchXOf (pt : String) (item spacing s2 : ℚ) : ℚ :=
  if pt = "diamond" then (item + spacing) * s2 else item + spacing

/-- The pitch along y chosen at lines 76 and 83-86 of src/main.py. -/
def pitchYOf (pt : String) (item spacing s2 : ℚ) : ℚ :=
  if pt = "diamond" then (item + spacing) * s2 / 2
  else if pt = "slot" then 10 + spacing
  else item + spacing

/-- The stagger allowance stagger_x, lines 77 and 88: half the x pitch. -/
def staggerXOf (pt : String) (item spacing s2 : ℚ) : ℚ :=
  pitchXOf pt item spacing s2 / 2

/-- The bounding size, lines 78 and 89: the diamond envelope is the side scaled
by the square root of two, otherwise the item size itself. -/
def boundingSizeOf (pt : String) (item s2 : ℚ) : ℚ :=
  if pt = "diamond" then item * s2 else item

/-- The per-row item height item_h, line 198. -/
def itemHOf (pt : String) (item s2 : ℚ) : ℚ :=
  if pt = "slot" then 10 else boundingSizeOf pt item s2

/-- Group width for a column count, line 105: columns times item plus the
internal gaps. -/
def groupWidth (item spacing : ℚ) (c : ℕ) : ℚ :=
  (c : ℚ) * item + ((c : ℚ) - 1) * spacing

/-- Number of groups fitting the sheet, lines 114-115: a floor division clamped
from below to one. -/
def groupNum (L item spacing gap : ℚ) (c : ℕ) : ℤ :=
  let n0 := ⌊(L + gap) / (groupWidth item spacing c + gap)⌋
  if n0 < 1 then 1 else n0

/-- The resulting margin for a column count, lines 118-119. -/
def groupMargin (L item spacing gap : ℚ) (c : ℕ) : ℚ :=
  let n : ℚ := (groupNum L item spacing gap c : ℚ)
  (L - (n * groupWidth item spacing c + (n - 1) * gap)) / 2

/-- Mutable state of the dynamic column search, lines 97-99. -/
structure GroupSearchState where
  best_col : ℕ
  best_margin : ℚ
  found_valid : Bool

/-- The dynamic column optimization loop, lines 102-149 of src/main.py: walk the
candidate column counts, break at the first margin under twenty once a valid
candidate exists, and keep the candidate whose margin is strictly closest to
thirty five. -/
def groupSearchAux (L item spacing gap : ℚ) : List ℕ → GroupSearchState → GroupSearchState
  | [], s => s
  | c :: rest, s =>
    let margin := groupMargin L item spacing gap c
    if margin < 20 then
      if s.found_valid then s
      else groupSearchAux L item spacing gap rest s
    else
      let s' :=
        if |margin - 35| < |s.best_margin - 35| then
          (⟨c, margin, true⟩ : GroupSearchState)
        else
          (⟨s.best_col, s.best_margin, true⟩ : GroupSearchState)
      groupSearchAux L item spacing gap rest s'

/-- The chosen column count: the loop runs over range(8, 100) starting from the
state best_col_count = 8, best_margin = 9999, found_valid = False. -/
def groupBestCol (L item spacing gap : ℚ) : ℕ :=
  (groupSearchAux L item spacing gap (List.range' 8 92) ⟨8, 9999, false⟩).best_col

/-- The dictionary returned by the standard branch of calculate_layout_params,
lines 210-218. -/
structure StdLayout where
  count_x : ℤ
  count_y : ℤ
  pitch_x : ℚ
  pitch_y : ℚ
  margin_x : ℚ
  margin_y : ℚ
deriving DecidableEq

/-- The dictionary returned by the grouped branch of calculate_layout_params,
lines 176-188. -/
structure GroupedLayout where
  num_groups : ℤ
  cols_per_group : ℕ
  group_stride : ℚ
  pitch_x : ℚ
  pitch_y : ℚ
  margin_x : ℚ
  margin_y : ℚ
  count_y : ℤ
deriving DecidableEq

/-- The two shapes of dictionary calculate_layout_params can return. -/
inductive LayoutResult
  | std : StdLayout → LayoutResult
  | grouped : GroupedLayout → LayoutResult
deriving DecidableEq

/-- The standard branch, lines 190-218 of src/main.py. -/
def stdLayoutOf (L W item spacing : ℚ) (pt : String) (s2 : ℚ) : StdLayout :=
  let pitch_x := pitchXOf pt item spacing s2
  let pitch_y := pitchYOf pt item spacing s2
  let stagger_x := staggerXOf pt item spacing s2
  let bounding := boundingSizeOf pt item s2
  let safe_w := L - 2 * TARGET_MIN_MARGIN - bounding - stagger_x
  let count_x : ℤ := if safe_w < 0 then 0 else ⌊safe_w / pitch_x⌋ + 1
  let item_h := itemHOf pt item s2
  let safe_h := W - 2 * TARGET_MIN_MARGIN - item_h
  let count_y : ℤ := if safe_h < 0 then 0 else ⌊safe_h / pitch_y⌋ + 1
  let total_w := bounding + ((count_x : ℚ) - 1) * pitch_x + stagger_x
  let total_h := item_h + ((count_y : ℚ) - 1) * pitch_y
  ⟨count_x, count_y, pitch_x, pitch_y, (L - total_w) / 2, (W - total_h) / 2⟩

/-- The grouped branch, lines 92-188 of src/main.py. -/
def groupedLayoutOf (L W item spacing : ℚ) (gr : Grouping) (pitch_x pitch_y : ℚ) :
    GroupedLayout :=
  let cols := groupBestCol L item spacing gr.gap_size
  let g_stride := groupWidth item spacing cols + gr.gap_size
  let num_groups := groupNum L item spacing gr.gap_size cols
  let margin_x := groupMargin L item spacing gr.gap_size cols
  let usable_y := W - 2 * TARGET_MIN_MARGIN
  let cy0 : ℤ := ⌊(usable_y - 10) / pitch_y⌋ + 1
  let count_y : ℤ := if cy0 < 0 then 0 else cy0
  let total_h := 10 + ((count_y : ℚ) - 1) * pitch_y
  ⟨num_groups, cols, g_stride, pitch_x, pitch_y, margin_x, (W - total_h) / 2, count_y⟩

/-- The full calculate_layout_params function of src/main.py, lines 70-218. -/
def calculate_layout_params (sheet_length sheet_width item_size spacing : ℚ)
    (pattern_type : String) (grouping : Option Grouping) (s2 : ℚ) : LayoutResult :=
  match grouping with
  | some gr =>
      .grouped (groupedLayoutOf sheet_length sheet_width item_size spacing gr
        (pitchXOf pattern_type item_size spacing s2)
        (pitchYOf pattern_type item_size spacing s2))
  | none => .std (stdLayoutOf sheet_length sheet_width item_size spacing pattern_type s2)

/-- The base hole size derived at lines 242-255 of generate_dxf. -/
def holeBase (cfg : PatternConfig) : ℚ :=
  if cfg.pattern = "square" ∨ cfg.pattern = "diamond" then cfg.hole_size.getD 10
  else if cfg.pattern = "circle" then cfg.hole_diameter.getD 10
  else if cfg.pattern = "slot" then cfg.slot_length.getD 35
  else 10

/-- The drawn hole width after the diamond override of lines 267-269. -/
def holeW (cfg : PatternConfig) (s2 : ℚ) : ℚ :=
  if cfg.pattern = "diamond" then holeBase cfg * s2
  else if cfg.pattern = "slot" then cfg.slot_length.getD 35
  else if cfg.pattern = "square" ∨ cfg.pattern = "circle" then holeBase cfg
  else 10

/-- The drawn hole height after the diamond override of lines 267-269. -/
def holeH (cfg : PatternConfig) (s2 : ℚ) : ℚ :=
  if cfg.pattern = "diamond" then holeBase cfg * s2
  else if cfg.pattern = "slot" then cfg.slot_width.getD 10
  else if cfg.pattern = "square" ∨ cfg.pattern = "circle" then holeBase cfg
  else 10

/-- The layout call made by generate_dxf at line 260. -/
def layoutFor (cfg : PatternConfig) (L W s2 : ℚ) : LayoutResult :=
  calculate_layout_params L W (holeBase cfg) cfg.spacing cfg.pattern cfg.grouping s2

/-- Axis-aligned bounding box of one emitted shape instance: every drawing branch
of lines 311-334 emits primitives contained in the box from the loop position
with the hole width and height. -/
structure Shape where
  x : ℚ
  y : ℚ
  w : ℚ
  h : ℚ
deriving DecidableEq

/-- The per-row offset, lines 297-299: half the x pitch on odd rows when the
offset mode is half. -/
def rowOffset (off : String) (pitch_x : ℚ) (row : ℕ) : ℚ :=
  if off = "half" ∧ row % 2 ≠ 0 then pitch_x / 2 else 0

/-- The shapes emitted by one pass of the standard inner loop, lines 313-334:
walk the column indices, skip a column whose box would cross the right sheet
edge, and emit one primitive group per recognized pattern kind. -/
def rowShapesStd (off pat : String) (l : StdLayout) (L hw hh : ℚ) (row : ℕ) :
    List Shape :=
  (List.range l.count_x.toNat).filterMap fun (c : ℕ) =>
    if l.margin_x + rowOffset off l.pitch_x row + (c : ℚ) * l.pitch_x + hw > L then none
    else if pat = "square" ∨ pat = "diamond" ∨ pat = "circle" ∨ pat = "slot" then
      some ⟨l.margin_x + rowOffset off l.pitch_x row + (c : ℚ) * l.pitch_x,
            l.margin_y + (row : ℚ) * l.pitch_y, hw, hh⟩
    else none

/-- The shapes emitted by one pass of the grouped inner loop, lines 301-312:
no boundary check is made, and only the square pattern emits anything. -/
def rowShapesGrouped (pat : String) (g : GroupedLayout) (hw hh : ℚ) (row : ℕ) :
    List Shape :=
  (List.range g.num_groups.toNat).flatMap fun (gi : ℕ) =>
    (List.range g.cols_per_group).filterMap fun (c : ℕ) =>
      if pat = "square" then
        some ⟨g.margin_x + (gi : ℚ) * g.group_stride + (c : ℚ) * g.pitch_x,
              g.margin_y + (row : ℚ) * g.pitch_y, hw, hh⟩
      else none

/-- All shapes emitted by the drawing loop of generate_dxf, lines 287-337. -/
def emittedShapes (cfg : PatternConfig) (L W s2 : ℚ) : List Shape :=
  match layoutFor cfg L W s2 with
  | .std l =>
      (List.range l.count_y.toNat).flatMap
        (rowShapesStd cfg.offset cfg.pattern l L (holeW cfg s2) (holeH cfg s2))
  | .grouped g =>
      (List.range g.count_y.toNat).flatMap
        (rowShapesGrouped cfg.pattern g (holeW cfg s2) (holeH cfg s2))

/-- A shape box lies inside the sheet rectangle. -/
def insideSheet (L W : ℚ) (s : Shape) : Prop :=
  0 ≤ s.x ∧ s.x + s.w ≤ L ∧ 0 ≤ s.y ∧ s.y + s.h ≤ W

instance (L W : ℚ) (s : Shape) : Decidable (insideSheet L W s) := by
  unfold insideSheet; infer_instance

/-- A resolved configuration is well formed: positive sizes, a recognized pattern
kind, the slot preset width agreeing with the hard-coded slot row height, and a
grouped configuration only for ten millimeter squares with a positive gap. -/
def ConfigOK (cfg : PatternConfig) : Prop :=
  0 < holeBase cfg ∧ 0 < cfg.spacing ∧
  (cfg.pattern = "square" ∨ cfg.pattern = "diamond" ∨ cfg.pattern = "circle" ∨
    cfg.pattern = "slot") ∧
  (cfg.pattern = "slot" → cfg.slot_width.getD 10 = 10) ∧
  (∀ gr : Grouping, cfg.grouping = some gr →
    0 < gr.gap_size ∧ holeBase cfg = 10 ∧ cfg.pattern = "square")

instance (cfg : PatternConfig) : Decidable (ConfigOK cfg) := by
  haveI h : Decidable (∀ gr : Grouping, cfg.grouping = some gr →
      0 < gr.gap_size ∧ holeBase cfg = 10 ∧ cfg.pattern = "square") := by
    cases hg : cfg.grouping with
    | none => exact isTrue (by intro gr hgr; cases hgr)
    | some g =>
      refine decidable_of_iff (0 < g.gap_size ∧ holeBase cfg = 10 ∧ cfg.pattern = "square") ?_
      constructor
      · intro hp gr hgr
        cases hgr
        exact hp
      · intro hall
        exact hall g rfl
  unfold ConfigOK
  infer_instance

/-- The floating-point value of math.sqrt(2), used when a concrete run of the
source is evaluated. -/
def sqrtTwoFloat : ℚ := 1.4142135623730951

/- ===================== helper lemmas: positivity and accessors ===================== -/

lemma pitchXOf_pos {pt : String} {item spacing s2 : ℚ} (hi : 0 < item)
    (hsp : 0 < spacing) (hs2 : 1 ≤ s2) : 0 < pitchXOf pt item spacing s2 := by
  unfold pitchXOf
  split <;> nlinarith

lemma pitchYOf_pos {pt : String} {item spacing s2 : ℚ} (hi : 0 < item)
    (hsp : 0 < spacing) (hs2 : 1 ≤ s2) : 0 < pitchYOf pt item spacing s2 := by
  unfold pitchYOf
  split
  · nlinarith
  · split <;> nlinarith

lemma boundingSizeOf_pos {pt : String} {item s2 : ℚ} (hi : 0 < item) (hs2 : 1 ≤ s2) :
    0 < boundingSizeOf pt item s2 := by
  unfold boundingSizeOf
  split <;> nlinarith

lemma itemHOf_pos {pt : String} {item s2 : ℚ} (hi : 0 < item) (hs2 : 1 ≤ s2) :
    0 < itemHOf pt item s2 := by
  unfold itemHOf
  split
  · norm_num
  · exact boundingSizeOf_pos hi hs2

lemma staggerXOf_eq {pt : String} {item spacing s2 : ℚ} :
    staggerXOf pt item spacing s2 = pitchXOf pt item spacing s2 / 2 := rfl

lemma stdLayoutOf_count_x (L W item spacing : ℚ) (pt : String) (s2 : ℚ) :
    (stdLayoutOf L W item spacing pt s2).count_x =
      if L - 2 * TARGET_MIN_MARGIN - boundingSizeOf pt item s2 -
          staggerXOf pt item spacing s2 < 0 then 0
      else ⌊(L - 2 * TARGET_MIN_MARGIN - boundingSizeOf pt item s2 -
          staggerXOf pt item spacing s2) / pitchXOf pt item spacing s2⌋ + 1 := rfl

lemma stdLayoutOf_count_y (L W item spacing : ℚ) (pt : String) (s2 : ℚ) :
    (stdLayoutOf L W item spacing pt s2).count_y =
      if W - 2 * TARGET_MIN_MARGIN - itemHOf pt item s2 < 0 then 0
      else ⌊(W - 2 * TARGET_MIN_MARGIN - itemHOf pt item s2) /
          pitchYOf pt item spacing s2⌋ + 1 := rfl

lemma stdLayoutOf_pitch_x (L W item spacing : ℚ) (pt : String) (s2 : ℚ) :
    (stdLayoutOf L W item spacing pt s2).pitch_x = pitchXOf pt item spacing s2 := rfl

lemma stdLayoutOf_pitch_y (L W item spacing : ℚ) (pt : String) (s2 : ℚ) :
    (stdLayoutOf L W item spacing pt s2).pitch_y = pitchYOf pt item spacing s2 := rfl

lemma stdLayoutOf_margin_x (L W item spacing : ℚ) (pt : String) (s2 : ℚ) :
    (stdLayoutOf L W item spacing pt s2).margin_x =
      (L - (boundingSizeOf pt item s2 +
        (((stdLayoutOf L W item spacing pt s2).count_x : ℚ) - 1) * pitchXOf pt item spacing s2 +
        staggerXOf pt item spacing s2)) / 2 := rfl

lemma stdLayoutOf_margin_y (L W item spacing : ℚ) (pt : String) (s2 : ℚ) :
    (stdLayoutOf L W item spacing pt s2).margin_y =
      (W - (itemHOf pt item s2 +
        (((stdLayoutOf L W item spacing pt s2).count_y : ℚ) - 1) *
          pitchYOf pt item spacing s2)) / 2 := rfl

/- ===================== helper lemmas: margin floors on the standard path ===================== -/

lemma std_count_x_nonneg (L W item spacing : ℚ) (pt : String) (s2 : ℚ)
    (hpx : 0 < pitchXOf pt item spacing s2) :
    0 ≤ (stdLayoutOf L W item spacing pt s2).count_x := by
  rw [stdLayoutOf_count_x]
  split
  · exact le_refl 0
  · have h0 : (0 : ℚ) ≤ (L - 2 * TARGET_MIN_MARGIN - boundingSizeOf pt item s2 -
        staggerXOf pt item spacing s2) / pitchXOf pt item spacing s2 :=
      div_nonneg (by linarith) hpx.le
    have := Int.floor_nonneg.mpr h0
    omega

lemma std_count_y_nonneg (L W item spacing : ℚ) (pt : String) (s2 : ℚ)
    (hpy : 0 < pitchYOf pt item spacing s2) :
    0 ≤ (stdLayoutOf L W item spacing pt s2).count_y := by
  rw [stdLayoutOf_count_y]
  split
  · exact le_refl 0
  · have h0 : (0 : ℚ) ≤ (W - 2 * TARGET_MIN_MARGIN - itemHOf pt item s2) /
        pitchYOf pt item spacing s2 := div_nonneg (by linarith) hpy.le
    have := Int.floor_nonneg.mpr h0
    omega

/-- With at least one column, the count times pitch stays within the usable width:
the block of line 204 fits in the sheet less both margins. -/
lemma std_total_w_le (L W item spacing : ℚ) (pt : String) (s2 : ℚ)
    (hpx : 0 < pitchXOf pt item spacing s2)
    (hcx : 1 ≤ (stdLayoutOf L W item spacing pt s2).count_x) :
    boundingSizeOf pt item s2 +
      (((stdLayoutOf L W item spacing pt s2).count_x : ℚ) - 1) * pitchXOf pt item spacing s2 +
      staggerXOf pt item spacing s2 ≤ L - 2 * TARGET_MIN_MARGIN := by
  rw [stdLayoutOf_count_x] at hcx ⊢
  set sw := L - 2 * TARGET_MIN_MARGIN - boundingSizeOf pt item s2 -
    staggerXOf pt item spacing s2 with hsw
  by_cases h : sw < 0
  · rw [if_pos h] at hcx
    omega
  · rw [if_neg h] at hcx ⊢
    push_neg at h
    have hfl : ((⌊sw / pitchXOf pt item spacing s2⌋ : ℚ)) ≤ sw / pitchXOf pt item spacing s2 :=
      Int.floor_le _
    have hmul : ((⌊sw / pitchXOf pt item spacing s2⌋ : ℚ)) * pitchXOf pt item spacing s2 ≤ sw := by
      rw [← le_div_iff₀ hpx]
      exact hfl
    have hcast : ((( ⌊sw / pitchXOf pt item spacing s2⌋ + 1 : ℤ)) : ℚ) - 1 =
        ((⌊sw / pitchXOf pt item spacing s2⌋ : ℚ)) := by
      push_cast
      ring
    rw [hcast]
    linarith

/-- With at least one row, the block of line 205 fits in the sheet less both margins. -/
lemma std_total_h_le (L W item spacing : ℚ) (pt : String) (s2 : ℚ)
    (hpy : 0 < pitchYOf pt item spacing s2)
    (hcy : 1 ≤ (stdLayoutOf L W item spacing pt s2).count_y) :
    itemHOf pt item s2 +
      (((stdLayoutOf L W item spacing pt s2).count_y : ℚ) - 1) * pitchYOf pt item spacing s2 ≤
      W - 2 * TARGET_MIN_MARGIN := by
  rw [stdLayoutOf_count_y] at hcy ⊢
  set sh := W - 2 * TARGET_MIN_MARGIN - itemHOf pt item s2 with hsh
  by_cases h : sh < 0
  · rw [if_pos h] at hcy
    omega
  · rw [if_neg h] at hcy ⊢
    push_neg at h
    have hfl : ((⌊sh / pitchYOf pt item spacing s2⌋ : ℚ)) ≤ sh / pitchYOf pt item spacing s2 :=
      Int.floor_le _
    have hmul : ((⌊sh / pitchYOf pt item spacing s2⌋ : ℚ)) * pitchYOf pt item spacing s2 ≤ sh := by
      rw [← le_div_iff₀ hpy]
      exact hfl
    have hcast : ((( ⌊sh / pitchYOf pt item spacing s2⌋ + 1 : ℤ)) : ℚ) - 1 =
        ((⌊sh / pitchYOf pt item spacing s2⌋ : ℚ)) := by
      push_cast
      ring
    rw [hcast]
    linarith

/-- When at least one column is placed, the computed x margin is at least 17. -/
lemma std_margin_x_ge (L W item spacing : ℚ) (pt : String) (s2 : ℚ)
    (hpx : 0 < pitchXOf pt item spacing s2)
    (hcx : 1 ≤ (stdLayoutOf L W item spacing pt s2).count_x) :
    TARGET_MIN_MARGIN ≤ (stdLayoutOf L W item spacing pt s2).margin_x := by
  have h := std_total_w_le L W item spacing pt s2 hpx hcx
  rw [stdLayoutOf_margin_x]
  rw [show (TARGET_MIN_MARGIN : ℚ) = 17 from rfl] at h ⊢
  linarith

/-- When at least one row is placed, the computed y margin is at least 17. -/
lemma std_margin_y_ge (L W item spacing : ℚ) (pt : String) (s2 : ℚ)
    (hpy : 0 < pitchYOf pt item spacing s2)
    (hcy : 1 ≤ (stdLayoutOf L W item spacing pt s2).count_y) :
    TARGET_MIN_MARGIN ≤ (stdLayoutOf L W item spacing pt s2).margin_y := by
  have h := std_total_h_le L W item spacing pt s2 hpy hcy
  rw [stdLayoutOf_margin_y]
  rw [show (TARGET_MIN_MARGIN : ℚ) = 17 from rfl] at h ⊢
  linarith

/- ===================== helper lemmas: drawing loop membership ===================== -/

lemma rowOffset_nonneg {off : String} {px : ℚ} (hpx : 0 ≤ px) (row : ℕ) :
    0 ≤ rowOffset off px row := by
  unfold rowOffset
  split
  · linarith
  · exact le_refl 0

lemma rowOffset_le {off : String} {px : ℚ} (hpx : 0 ≤ px) (row : ℕ) :
    rowOffset off px row ≤ px / 2 := by
  unfold rowOffset
  split
  · exact le_refl _
  · linarith

lemma mem_rowShapesStd {off pat : String} {l : StdLayout} {L hw hh : ℚ} {row : ℕ}
    {s : Shape} :
    s ∈ rowShapesStd off pat l L hw hh row ↔
      ∃ c : ℕ, c < l.count_x.toNat ∧
        l.margin_x + rowOffset off l.pitch_x row + (c : ℚ) * l.pitch_x + hw ≤ L ∧
        (pat = "square" ∨ pat = "diamond" ∨ pat = "circle" ∨ pat = "slot") ∧
        s = ⟨l.margin_x + rowOffset off l.pitch_x row + (c : ℚ) * l.pitch_x,
             l.margin_y + (row : ℚ) * l.pitch_y, hw, hh⟩ := by
  unfold rowShapesStd
  rw [List.mem_filterMap]
  constructor
  · rintro ⟨c, hc, hf⟩
    rw [List.mem_range] at hc
    refine ⟨c, hc, ?_⟩
    by_cases hgt : l.margin_x + rowOffset off l.pitch_x row + (c : ℚ) * l.pitch_x + hw > L
    · rw [if_pos hgt] at hf
      cases hf
    · rw [if_neg hgt] at hf
      by_cases hpat : pat = "square" ∨ pat = "diamond" ∨ pat = "circle" ∨ pat = "slot"
      · rw [if_pos hpat] at hf
        exact ⟨not_lt.mp hgt, hpat, (Option.some.inj hf).symm⟩
      · rw [if_neg hpat] at hf
        cases hf
  · rintro ⟨c, hc, hle, hpat, rfl⟩
    refine ⟨c, List.mem_range.mpr hc, ?_⟩
    rw [if_neg (not_lt.mpr hle), if_pos hpat]

lemma mem_rowShapesGrouped {pat : String} {g : GroupedLayout} {hw hh : ℚ} {row : ℕ}
    {s : Shape} :
    s ∈ rowShapesGrouped pat g hw hh row ↔
      ∃ gi : ℕ, gi < g.num_groups.toNat ∧ ∃ c : ℕ, c < g.cols_per_group ∧
        pat = "square" ∧
        s = ⟨g.margin_x + (gi : ℚ) * g.group_stride + (c : ℚ) * g.pitch_x,
             g.margin_y + (row : ℚ) * g.pitch_y, hw, hh⟩ := by
  unfold rowShapesGrouped
  rw [List.mem_flatMap]
  constructor
  · rintro ⟨gi, hgi, hmem⟩
    rw [List.mem_range] at hgi
    rw [List.mem_filterMap] at hmem
    obtain ⟨c, hc, hf⟩ := hmem
    rw [List.mem_range] at hc
    refine ⟨gi, hgi, c, hc, ?_⟩
    by_cases hpat : pat = "square"
    · rw [if_pos hpat] at hf
      exact ⟨hpat, (Option.some.inj hf).symm⟩
    · rw [if_neg hpat] at hf
      cases hf
  · rintro ⟨gi, hgi, c, hc, hpat, rfl⟩
    refine ⟨gi, List.mem_range.mpr hgi, ?_⟩
    rw [List.mem_filterMap]
    exact ⟨c, List.mem_range.mpr hc, by rw [if_pos hpat]⟩

lemma emittedShapes_std {cfg : PatternConfig} {L W s2 : ℚ} (hng : cfg.grouping = none) :
    emittedShapes cfg L W s2 =
      (List.range (stdLayoutOf L W (holeBase cfg) cfg.spacing cfg.pattern s2).count_y.toNat).flatMap
        (rowShapesStd cfg.offset cfg.pattern
          (stdLayoutOf L W (holeBase cfg) cfg.spacing cfg.pattern s2) L
          (holeW cfg s2) (holeH cfg s2)) := by
  unfold emittedShapes layoutFor calculate_layout_params
  rw [hng]

lemma emittedShapes_grouped {cfg : PatternConfig} {L W s2 : ℚ} {gr : Grouping}
    (hg : cfg.grouping = some gr) :
    emittedShapes cfg L W s2 =
      (List.range (groupedLayoutOf L W (holeBase cfg) cfg.spacing gr
          (pitchXOf cfg.pattern (holeBase cfg) cfg.spacing s2)
          (pitchYOf cfg.pattern (holeBase cfg) cfg.spacing s2)).count_y.toNat).flatMap
        (rowShapesGrouped cfg.pattern
          (groupedLayoutOf L W (holeBase cfg) cfg.spacing gr
            (pitchXOf cfg.pattern (holeBase cfg) cfg.spacing s2)
            (pitchYOf cfg.pattern (holeBase cfg) cfg.spacing s2))
          (holeW cfg s2) (holeH cfg s2)) := by
  unfold emittedShapes layoutFor calculate_layout_params
  rw [hg]

/-- For a well formed configuration, the drawn hole width equals the bounding size
used by the layout computation. -/
lemma holeW_eq_bounding {cfg : PatternConfig} {s2 : ℚ} (hok : ConfigOK cfg) :
    holeW cfg s2 = boundingSizeOf cfg.pattern (holeBase cfg) s2 := by
  obtain ⟨-, -, hpat, -, -⟩ := hok
  unfold holeW boundingSizeOf holeBase
  rcases hpat with h | h | h | h <;> rw [h] <;> simp

/-- For a well formed configuration, the drawn hole height equals the per-row item
height used by the layout computation. -/
lemma holeH_eq_itemH {cfg : PatternConfig} {s2 : ℚ} (hok : ConfigOK cfg) :
    holeH cfg s2 = itemHOf cfg.pattern (holeBase cfg) s2 := by
  obtain ⟨-, -, hpat, hslot, -⟩ := hok
  unfold holeH itemHOf boundingSizeOf holeBase
  rcases hpat with h | h | h | h <;> rw [h]
  · simp
  · simp
  · simp
  · specialize hslot h
    simp [hslot]

/- ===================== helper lemmas: grouped branch ===================== -/

lemma groupedLayoutOf_cols (L W item spacing : ℚ) (gr : Grouping) (px py : ℚ) :
    (groupedLayoutOf L W item spacing gr px py).cols_per_group =
      groupBestCol L item spacing gr.gap_size := rfl

lemma groupedLayoutOf_margin_x (L W item spacing : ℚ) (gr : Grouping) (px py : ℚ) :
    (groupedLayoutOf L W item spacing gr px py).margin_x =
      groupMargin L item spacing gr.gap_size (groupBestCol L item spacing gr.gap_size) := rfl

lemma groupedLayoutOf_num_groups (L W item spacing : ℚ) (gr : Grouping) (px py : ℚ) :
    (groupedLayoutOf L W item spacing gr px py).num_groups =
      groupNum L item spacing gr.gap_size (groupBestCol L item spacing gr.gap_size) := rfl

lemma groupedLayoutOf_stride (L W item spacing : ℚ) (gr : Grouping) (px py : ℚ) :
    (groupedLayoutOf L W item spacing gr px py).group_stride =
      groupWidth item spacing (groupBestCol L item spacing gr.gap_size) + gr.gap_size := rfl

lemma groupedLayoutOf_count_y (L W item spacing : ℚ) (gr : Grouping) (px py : ℚ) :
    (groupedLayoutOf L W item spacing gr px py).count_y =
      if (⌊(W - 2 * TARGET_MIN_MARGIN - 10) / py⌋ + 1 : ℤ) < 0 then 0
      else ⌊(W - 2 * TARGET_MIN_MARGIN - 10) / py⌋ + 1 := rfl

lemma groupedLayoutOf_margin_y (L W item spacing : ℚ) (gr : Grouping) (px py : ℚ) :
    (groupedLayoutOf L W item spacing gr px py).margin_y =
      (W - (10 + (((groupedLayoutOf L W item spacing gr px py).count_y : ℚ) - 1) * py)) / 2 :=
  rfl

lemma groupNum_ge_one (L item spacing gap : ℚ) (c : ℕ) :
    1 ≤ groupNum L item spacing gap c := by
  show 1 ≤ if (⌊(L + gap) / (groupWidth item spacing c + gap)⌋ : ℤ) < 1 then 1
    else ⌊(L + gap) / (groupWidth item spacing c + gap)⌋
  split
  · exact le_refl 1
  · omega

/-- One unfolding step of the optimization loop. -/
lemma gsAux_step (L item spacing gap : ℚ) (c : ℕ) (rest : List ℕ) (s : GroupSearchState) :
    groupSearchAux L item spacing gap (c :: rest) s =
      if groupMargin L item spacing gap c < 20 then
        (if s.found_valid then s else groupSearchAux L item spacing gap rest s)
      else
        groupSearchAux L item spacing gap rest
          (if |groupMargin L item spacing gap c - 35| < |s.best_margin - 35| then
            (⟨c, groupMargin L item spacing gap c, true⟩ : GroupSearchState)
          else (⟨s.best_col, s.best_margin, true⟩ : GroupSearchState)) := rfl

lemma gsAux_col_bounds (L item spacing gap : ℚ) (cs : List ℕ)
    (hcs : ∀ c ∈ cs, 8 ≤ c ∧ c ≤ 99) (s : GroupSearchState)
    (h8 : 8 ≤ s.best_col) (h99 : s.best_col ≤ 99) :
    8 ≤ (groupSearchAux L item spacing gap cs s).best_col ∧
      (groupSearchAux L item spacing gap cs s).best_col ≤ 99 := by
  induction cs generalizing s with
  | nil => exact ⟨h8, h99⟩
  | cons c rest ih =>
    have hc := hcs c (List.mem_cons_self c rest)
    have hrest : ∀ x ∈ rest, 8 ≤ x ∧ x ≤ 99 := fun x hx => hcs x (List.mem_cons_of_mem c hx)
    rw [gsAux_step]
    by_cases hm : groupMargin L item spacing gap c < 20
    · rw [if_pos hm]
      by_cases hf : s.found_valid
      · rw [if_pos hf]
        exact ⟨h8, h99⟩
      · rw [if_neg hf]
        exact ih hrest s h8 h99
    · rw [if_neg hm]
      by_cases hupd : |groupMargin L item spacing gap c - 35| < |s.best_margin - 35|
      · rw [if_pos hupd]
        exact ih hrest _ hc.1 hc.2
      · rw [if_neg hupd]
        exact ih hrest _ h8 h99

lemma groupBestCol_bounds (L item spacing gap : ℚ) :
    8 ≤ groupBestCol L item spacing gap ∧ groupBestCol L item spacing gap ≤ 99 := by
  unfold groupBestCol
  refine gsAux_col_bounds L item spacing gap _ ?_ _ (le_refl 8) (by norm_num)
  intro c hc
  rw [List.mem_range'_1] at hc
  omega

/-- When at least one row is placed, the grouped y margin is at least 17. -/
lemma grouped_margin_y_ge (L W item spacing : ℚ) (gr : Grouping) (px py : ℚ)
    (hpy : 0 < py) (hcy : 1 ≤ (groupedLayoutOf L W item spacing gr px py).count_y) :
    TARGET_MIN_MARGIN ≤ (groupedLayoutOf L W item spacing gr px py).margin_y := by
  rw [groupedLayoutOf_margin_y]
  rw [groupedLayoutOf_count_y] at hcy ⊢
  set q := (W - 2 * TARGET_MIN_MARGIN - 10) / py with hq
  by_cases h : (⌊q⌋ + 1 : ℤ) < 0
  · rw [if_pos h] at hcy
    omega
  · rw [if_neg h] at hcy ⊢
    have h0 : (0 : ℤ) ≤ ⌊q⌋ := by omega
    have h0q : (0 : ℚ) ≤ q := by exact_mod_cast Int.floor_nonneg.mp h0
    have hfl : ((⌊q⌋ : ℚ)) ≤ q := Int.floor_le _
    have hmul : ((⌊q⌋ : ℚ)) * py ≤ W - 2 * TARGET_MIN_MARGIN - 10 := by
      rw [← le_div_iff₀ hpy]
      exact hfl
    have hcast : (((⌊q⌋ + 1 : ℤ)) : ℚ) - 1 = ((⌊q⌋ : ℚ)) := by
      push_cast
      ring
    rw [hcast]
    rw [show (TARGET_MIN_MARGIN : ℚ) = 17 from rfl] at hmul ⊢
    linarith

/-- The total grouped pattern width identity of lines 157-164. -/
lemma groupMargin_total (L item spacing gap : ℚ) (c : ℕ) :
    ((groupNum L item spacing gap c : ℚ)) * groupWidth item spacing c +
      ((groupNum L item spacing gap c : ℚ) - 1) * gap = L - 2 * groupMargin L item spacing gap c := by
  unfold groupMargin
  ring

/- ===================== helper lemmas: the column search at the preset parameters ===================== -/

lemma groupWidth_ten (c : ℕ) : groupWidth 10 10 c = 20 * (c : ℚ) - 10 := by
  unfold groupWidth
  ring

lemma groupMargin_eq (L item spacing gap : ℚ) (c : ℕ) :
    groupMargin L item spacing gap c =
      (L - ((groupNum L item spacing gap c : ℚ) * groupWidth item spacing c +
        ((groupNum L item spacing gap c : ℚ) - 1) * gap)) / 2 := rfl

lemma groupNum_eq (L item spacing gap : ℚ) (c : ℕ) :
    groupNum L item spacing gap c =
      if (⌊(L + gap) / (groupWidth item spacing c + gap)⌋ : ℤ) < 1 then 1
      else ⌊(L + gap) / (groupWidth item spacing c + gap)⌋ := rfl

/-- The margin computed for a column count never reaches half the stride: one more
group would otherwise have fit. -/
lemma groupMargin_lt_half_stride (L : ℚ) (c : ℕ) (hc : 1 ≤ c) :
    groupMargin L 10 10 70 c < (20 * (c : ℚ) + 60) / 2 := by
  have hc1 : (1 : ℚ) ≤ (c : ℚ) := by exact_mod_cast hc
  have hst : (0 : ℚ) < groupWidth 10 10 c + 70 := by
    rw [groupWidth_ten]
    linarith
  have hst' : groupWidth 10 10 c + 70 = 20 * (c : ℚ) + 60 := by
    rw [groupWidth_ten]
    ring
  rw [groupMargin_eq, groupNum_eq]
  by_cases h : (⌊(L + 70) / (groupWidth 10 10 c + 70)⌋ : ℤ) < 1
  · rw [if_pos h]
    have h0 : (⌊(L + 70) / (groupWidth 10 10 c + 70)⌋ : ℤ) ≤ 0 := by omega
    have h0q : ((⌊(L + 70) / (groupWidth 10 10 c + 70)⌋ : ℤ) : ℚ) ≤ 0 := by
      exact_mod_cast h0
    have hq1 : (L + 70) / (groupWidth 10 10 c + 70) < 1 := by
      have := Int.lt_floor_add_one ((L + 70) / (groupWidth 10 10 c + 70))
      linarith
    rw [div_lt_one hst] at hq1
    rw [← hst']
    push_cast
    linarith
  · rw [if_neg h]
    have hlt : (L + 70) / (groupWidth 10 10 c + 70) <
        ((⌊(L + 70) / (groupWidth 10 10 c + 70)⌋ : ℤ) : ℚ) + 1 :=
      Int.lt_floor_add_one _
    rw [div_lt_iff₀ hst] at hlt
    rw [← hst']
    nlinarith [hlt]

lemma groupMargin_lt_1020 (L : ℚ) (c : ℕ) (h8 : 8 ≤ c) (h99 : c ≤ 99) :
    groupMargin L 10 10 70 c < 1020 := by
  have h := groupMargin_lt_half_stride L c (by omega)
  have hcq : ((c : ℚ)) ≤ 99 := by exact_mod_cast h99
  linarith

/-- Loop invariant of the column search at the preset parameters: once a valid
candidate was seen, the best margin is the margin of the best column and at
least twenty; before that the state still holds the initial values. -/
def GInv (L : ℚ) (s : GroupSearchState) : Prop :=
  (s.found_valid = true →
    s.best_margin = groupMargin L 10 10 70 s.best_col ∧ 20 ≤ s.best_margin ∧
      8 ≤ s.best_col ∧ s.best_col ≤ 99) ∧
  (s.found_valid = false → s.best_col = 8 ∧ s.best_margin = 9999)

lemma gInv_init (L : ℚ) : GInv L ⟨8, 9999, false⟩ := by
  refine ⟨fun h => ?_, fun _ => ⟨rfl, rfl⟩⟩
  simp at h

lemma abs_margin_lt_init (L : ℚ) (c : ℕ) (h8 : 8 ≤ c) (h99 : c ≤ 99)
    (hm : 20 ≤ groupMargin L 10 10 70 c) :
    |groupMargin L 10 10 70 c - 35| < |(9999 : ℚ) - 35| := by
  have hub := groupMargin_lt_1020 L c h8 h99
  rw [abs_sub_lt_iff]
  constructor
  · rw [show |(9999 : ℚ) - 35| = 9964 by norm_num]
    linarith
  · rw [show |(9999 : ℚ) - 35| = 9964 by norm_num]
    linarith

lemma gsAux_inv (L : ℚ) (cs : List ℕ) (hcs : ∀ c ∈ cs, 8 ≤ c ∧ c ≤ 99)
    (s : GroupSearchState) (hs : GInv L s) :
    GInv L (groupSearchAux L 10 10 70 cs s) := by
  induction cs generalizing s with
  | nil => exact hs
  | cons c rest ih =>
    have hc := hcs c (List.mem_cons_self c rest)
    have hrest : ∀ x ∈ rest, 8 ≤ x ∧ x ≤ 99 := fun x hx => hcs x (List.mem_cons_of_mem c hx)
    rw [gsAux_step]
    by_cases hm : groupMargin L 10 10 70 c < 20
    · rw [if_pos hm]
      by_cases hf : s.found_valid
      · rw [if_pos hf]
        exact hs
      · rw [if_neg hf]
        exact ih hrest s hs
    · rw [if_neg hm]
      push_neg at hm
      by_cases hupd : |groupMargin L 10 10 70 c - 35| < |s.best_margin - 35|
      · rw [if_pos hupd]
        exact ih hrest _ ⟨fun _ => ⟨rfl, hm, hc.1, hc.2⟩, fun h => by simp at h⟩
      · rw [if_neg hupd]
        refine ih hrest _ ⟨fun _ => ?_, fun h => by simp at h⟩
        rcases Bool.eq_false_or_eq_true s.found_valid with hf | hf
        · exact hs.1 hf
        · exfalso
          obtain ⟨hcol, hbm⟩ := hs.2 hf
          rw [hbm] at hupd
          exact hupd (abs_margin_lt_init L c hc.1 hc.2 hm)

lemma gsAux_found_mono (L : ℚ) (cs : List ℕ) (s : GroupSearchState)
    (hf : s.found_valid = true) :
    (groupSearchAux L 10 10 70 cs s).found_valid = true := by
  induction cs generalizing s with
  | nil => exact hf
  | cons c rest ih =>
    rw [gsAux_step]
    by_cases hm : groupMargin L 10 10 70 c < 20
    · rw [if_pos hm, if_pos hf]
      exact hf
    · rw [if_neg hm]
      split
      · exact ih _ rfl
      · exact ih _ rfl

lemma gsAux_found_of_exists (L : ℚ) (cs : List ℕ) (s : GroupSearchState)
    (hex : ∃ c ∈ cs, 20 ≤ groupMargin L 10 10 70 c) :
    (groupSearchAux L 10 10 70 cs s).found_valid = true := by
  induction cs generalizing s with
  | nil =>
    obtain ⟨c, hc, -⟩ := hex
    cases hc
  | cons c rest ih =>
    rw [gsAux_step]
    by_cases hm : groupMargin L 10 10 70 c < 20
    · rw [if_pos hm]
      have hex' : ∃ x ∈ rest, 20 ≤ groupMargin L 10 10 70 x := by
        obtain ⟨x, hx, hxm⟩ := hex
        rcases List.mem_cons.mp hx with h | h
        · subst h
          linarith
        · exact ⟨x, h, hxm⟩
      by_cases hf : s.found_valid
      · rw [if_pos hf]
        exact hf
      · rw [if_neg hf]
        exact ih _ hex'
    · rw [if_neg hm]
      split
      · exact gsAux_found_mono L rest _ rfl
      · exact gsAux_found_mono L rest _ rfl

lemma gsAux_id_of_invalid (L : ℚ) (cs : List ℕ) (s : GroupSearchState)
    (hf : s.found_valid = false) (hall : ∀ c ∈ cs, groupMargin L 10 10 70 c < 20) :
    groupSearchAux L 10 10 70 cs s = s := by
  induction cs with
  | nil => rfl
  | cons c rest ih =>
    rw [gsAux_step, if_pos (hall c (List.mem_cons_self c rest)),
      if_neg (by rw [hf]; exact Bool.false_ne_true)]
    exact ih (fun x hx => hall x (List.mem_cons_of_mem c hx))

/-- When the loop never stops early because every visited margin stays valid, the
final best margin is at least as close to the sweet spot as every candidate. -/
lemma gsAux_optimal (L : ℚ) (cs : List ℕ) (s : GroupSearchState)
    (hcs : ∀ c ∈ cs, 20 ≤ groupMargin L 10 10 70 c)
    (hf : s.found_valid = true) :
    |(groupSearchAux L 10 10 70 cs s).best_margin - 35| ≤ |s.best_margin - 35| ∧
    ∀ c ∈ cs, |(groupSearchAux L 10 10 70 cs s).best_margin - 35| ≤
      |groupMargin L 10 10 70 c - 35| := by
  induction cs generalizing s with
  | nil => exact ⟨le_refl _, fun c hc => absurd hc (List.not_mem_nil c)⟩
  | cons c rest ih =>
    have hm := hcs c (List.mem_cons_self c rest)
    have hrest : ∀ x ∈ rest, 20 ≤ groupMargin L 10 10 70 x :=
      fun x hx => hcs x (List.mem_cons_of_mem c hx)
    rw [gsAux_step, if_neg (not_lt.mpr hm)]
    by_cases hupd : |groupMargin L 10 10 70 c - 35| < |s.best_margin - 35|
    · rw [if_pos hupd]
      obtain ⟨ih1, ih2⟩ := ih ⟨c, groupMargin L 10 10 70 c, true⟩ hrest rfl
      refine ⟨ih1.trans hupd.le, fun x hx => ?_⟩
      rcases List.mem_cons.mp hx with h | h
      · subst h
        exact ih1
      · exact ih2 x h
    · rw [if_neg hupd]
      push_neg at hupd
      obtain ⟨ih1, ih2⟩ := ih ⟨s.best_col, s.best_margin, true⟩ hrest rfl
      refine ⟨ih1, fun x hx => ?_⟩
      rcases List.mem_cons.mp hx with h | h
      · subst h
        exact ih1.trans hupd
      · exact ih2 x h

lemma range'_mem_bounds : ∀ c ∈ List.range' 8 92, 8 ≤ c ∧ c ≤ 99 := by
  intro c hc
  rw [List.mem_range'_1] at hc
  omega

lemma groupBestCol_ginv (L : ℚ) :
    GInv L (groupSearchAux L 10 10 70 (List.range' 8 92) ⟨8, 9999, false⟩) :=
  gsAux_inv L _ range'_mem_bounds _ (gInv_init L)

/- ===================== helper lemmas: bounds on emitted shapes ===================== -/

lemma length_filterMap_of_isSome {α β : Type} (f : α → Option β) :
    ∀ l : List α, (∀ a ∈ l, (f a).isSome) → (l.filterMap f).length = l.length
  | [], _ => rfl
  | a :: l, h => by
    rw [List.filterMap_cons]
    cases hf : f a with
    | none =>
      exact absurd (h a (List.mem_cons_self a l)) (by rw [hf]; simp)
    | some b =>
      rw [List.length_cons, length_filterMap_of_isSome f l
        (fun x hx => h x (List.mem_cons_of_mem a hx))]
      exact (List.length_cons a l).symm

/-- Every shape the standard drawing path emits lies between the computed
margins on both axes. -/
lemma std_shape_bounds (cfg : PatternConfig) (L W s2 : ℚ) (hok : ConfigOK cfg)
    (hs2 : 1 ≤ s2) (hng : cfg.grouping = none) :
    ∀ s ∈ emittedShapes cfg L W s2,
      ((stdLayoutOf L W (holeBase cfg) cfg.spacing cfg.pattern s2).margin_x ≤ s.x ∧
      s.x + s.w ≤ L - (stdLayoutOf L W (holeBase cfg) cfg.spacing cfg.pattern s2).margin_x ∧
      (stdLayoutOf L W (holeBase cfg) cfg.spacing cfg.pattern s2).margin_y ≤ s.y ∧
      s.y + s.h ≤ W - (stdLayoutOf L W (holeBase cfg) cfg.spacing cfg.pattern s2).margin_y) ∧
      TARGET_MIN_MARGIN ≤ (stdLayoutOf L W (holeBase cfg) cfg.spacing cfg.pattern s2).margin_x ∧
      TARGET_MIN_MARGIN ≤ (stdLayoutOf L W (holeBase cfg) cfg.spacing cfg.pattern s2).margin_y := by
  obtain ⟨hi, hsp, hpat, hslot, hgr⟩ := hok
  have hpx := @pitchXOf_pos cfg.pattern (holeBase cfg) cfg.spacing s2 hi hsp hs2
  have hpy := @pitchYOf_pos cfg.pattern (holeBase cfg) cfg.spacing s2 hi hsp hs2
  intro s hs
  rw [emittedShapes_std hng] at hs
  set l := stdLayoutOf L W (holeBase cfg) cfg.spacing cfg.pattern s2 with hl
  rw [List.mem_flatMap] at hs
  obtain ⟨row, hrow, hmem⟩ := hs
  rw [List.mem_range] at hrow
  rw [mem_rowShapesStd] at hmem
  obtain ⟨c, hc, hguard, -, rfl⟩ := hmem
  have hcx1 : 1 ≤ l.count_x := by omega
  have hcy1 : 1 ≤ l.count_y := by omega
  have hpx' : 0 < l.pitch_x := hpx
  have hpy' : 0 < l.pitch_y := hpy
  have hmx := std_margin_x_ge L W (holeBase cfg) cfg.spacing cfg.pattern s2 hpx hcx1
  have hmy := std_margin_y_ge L W (holeBase cfg) cfg.spacing cfg.pattern s2 hpy hcy1
  rw [← hl] at hmx hmy
  have hro0 : 0 ≤ rowOffset cfg.offset l.pitch_x row := rowOffset_nonneg hpx'.le row
  have hro2 : rowOffset cfg.offset l.pitch_x row ≤ l.pitch_x / 2 := rowOffset_le hpx'.le row
  have hcq : (c : ℚ) ≤ (l.count_x : ℚ) - 1 := by
    have h1 : (c : ℤ) ≤ l.count_x - 1 := by omega
    have h2 : ((c : ℤ) : ℚ) ≤ ((l.count_x - 1 : ℤ) : ℚ) := by exact_mod_cast h1
    push_cast at h2 ⊢
    linarith
  have hrowq : (row : ℚ) ≤ (l.count_y : ℚ) - 1 := by
    have h1 : (row : ℤ) ≤ l.count_y - 1 := by omega
    have h2 : ((row : ℤ) : ℚ) ≤ ((l.count_y - 1 : ℤ) : ℚ) := by exact_mod_cast h1
    push_cast at h2 ⊢
    linarith
  have hw_eq : holeW cfg s2 = boundingSizeOf cfg.pattern (holeBase cfg) s2 :=
    holeW_eq_bounding ⟨hi, hsp, hpat, hslot, hgr⟩
  have hh_eq : holeH cfg s2 = itemHOf cfg.pattern (holeBase cfg) s2 :=
    holeH_eq_itemH ⟨hi, hsp, hpat, hslot, hgr⟩
  have hcmul : (c : ℚ) * l.pitch_x ≤ ((l.count_x : ℚ) - 1) * l.pitch_x :=
    mul_le_mul_of_nonneg_right hcq hpx'.le
  have hrmul : (row : ℚ) * l.pitch_y ≤ ((l.count_y : ℚ) - 1) * l.pitch_y :=
    mul_le_mul_of_nonneg_right hrowq hpy'.le
  have hcpos : 0 ≤ (c : ℚ) * l.pitch_x :=
    mul_nonneg (Nat.cast_nonneg c) hpx'.le
  have hrpos : 0 ≤ (row : ℚ) * l.pitch_y :=
    mul_nonneg (Nat.cast_nonneg row) hpy'.le
  have htw' : boundingSizeOf cfg.pattern (holeBase cfg) s2 +
      ((l.count_x : ℚ) - 1) * l.pitch_x + l.pitch_x / 2 ≤ L - 2 * TARGET_MIN_MARGIN :=
    std_total_w_le L W (holeBase cfg) cfg.spacing cfg.pattern s2 hpx hcx1
  have hth' : itemHOf cfg.pattern (holeBase cfg) s2 +
      ((l.count_y : ℚ) - 1) * l.pitch_y ≤ W - 2 * TARGET_MIN_MARGIN :=
    std_total_h_le L W (holeBase cfg) cfg.spacing cfg.pattern s2 hpy hcy1
  have hmxeq' : l.margin_x = (L - (boundingSizeOf cfg.pattern (holeBase cfg) s2 +
      ((l.count_x : ℚ) - 1) * l.pitch_x + l.pitch_x / 2)) / 2 :=
    stdLayoutOf_margin_x L W (holeBase cfg) cfg.spacing cfg.pattern s2
  have hmyeq' : l.margin_y = (W - (itemHOf cfg.pattern (holeBase cfg) s2 +
      ((l.count_y : ℚ) - 1) * l.pitch_y)) / 2 :=
    stdLayoutOf_margin_y L W (holeBase cfg) cfg.spacing cfg.pattern s2
  refine ⟨⟨?_, ?_, ?_, ?_⟩, hmx, hmy⟩
  · show l.margin_x ≤ l.margin_x + rowOffset cfg.offset l.pitch_x row + (c : ℚ) * l.pitch_x
    linarith
  · show l.margin_x + rowOffset cfg.offset l.pitch_x row + (c : ℚ) * l.pitch_x +
      holeW cfg s2 ≤ L - l.margin_x
    rw [hw_eq]
    linarith
  · show l.margin_y ≤ l.margin_y + (row : ℚ) * l.pitch_y
    linarith
  · show l.margin_y + (row : ℚ) * l.pitch_y + holeH cfg s2 ≤ W - l.margin_y
    rw [hh_eq]
    linarith

/-- When the grouped x margin is nonnegative, every shape the grouped drawing
path emits lies inside the sheet. -/
lemma grouped_shape_bounds (cfg : PatternConfig) (L W s2 : ℚ) (hok : ConfigOK cfg)
    (hs2 : 1 ≤ s2) (gr : Grouping) (hg : cfg.grouping = some gr)
    (hm0 : 0 ≤ (groupedLayoutOf L W (holeBase cfg) cfg.spacing gr
        (pitchXOf cfg.pattern (holeBase cfg) cfg.spacing s2)
        (pitchYOf cfg.pattern (holeBase cfg) cfg.spacing s2)).margin_x) :
    ∀ s ∈ emittedShapes cfg L W s2, insideSheet L W s := by
  obtain ⟨hi, hsp, hpat, hslot, hgrp⟩ := hok
  obtain ⟨hgap, hbase10, hsq⟩ := hgrp gr hg
  have hpy := @pitchYOf_pos cfg.pattern (holeBase cfg) cfg.spacing s2 hi hsp hs2
  intro s hs
  rw [emittedShapes_grouped hg] at hs
  set g := groupedLayoutOf L W (holeBase cfg) cfg.spacing gr
    (pitchXOf cfg.pattern (holeBase cfg) cfg.spacing s2)
    (pitchYOf cfg.pattern (holeBase cfg) cfg.spacing s2) with hgdef
  rw [List.mem_flatMap] at hs
  obtain ⟨row, hrow, hmem⟩ := hs
  rw [List.mem_range] at hrow
  rw [mem_rowShapesGrouped] at hmem
  obtain ⟨gi, hgi, c, hc, -, rfl⟩ := hmem
  have hcy1 : 1 ≤ g.count_y := by omega
  have hnum1 : 1 ≤ g.num_groups := groupNum_ge_one L (holeBase cfg) cfg.spacing gr.gap_size _
  have hcols8 : 8 ≤ g.cols_per_group := (groupBestCol_bounds L (holeBase cfg) cfg.spacing gr.gap_size).1
  have hpy' : 0 < g.pitch_y := hpy
  have hpx_eq : g.pitch_x = holeBase cfg + cfg.spacing := by
    show pitchXOf cfg.pattern (holeBase cfg) cfg.spacing s2 = holeBase cfg + cfg.spacing
    rw [hsq]
    unfold pitchXOf
    simp
  have hhw : holeW cfg s2 = holeBase cfg := by
    rw [holeW_eq_bounding ⟨hi, hsp, hpat, hslot, hgrp⟩, hsq]
    unfold boundingSizeOf
    simp
  have hhh : holeH cfg s2 = holeBase cfg := by
    rw [holeH_eq_itemH ⟨hi, hsp, hpat, hslot, hgrp⟩, hsq]
    unfold itemHOf boundingSizeOf
    simp
  have hmy := grouped_margin_y_ge L W (holeBase cfg) cfg.spacing gr
    (pitchXOf cfg.pattern (holeBase cfg) cfg.spacing s2)
    (pitchYOf cfg.pattern (holeBase cfg) cfg.spacing s2) hpy hcy1
  rw [← hgdef] at hmy
  have hmyeq : g.margin_y = (W - (10 + ((g.count_y : ℚ) - 1) * g.pitch_y)) / 2 :=
    groupedLayoutOf_margin_y L W (holeBase cfg) cfg.spacing gr
      (pitchXOf cfg.pattern (holeBase cfg) cfg.spacing s2)
      (pitchYOf cfg.pattern (holeBase cfg) cfg.spacing s2)
  have hmxeq : g.margin_x = groupMargin L (holeBase cfg) cfg.spacing gr.gap_size
      g.cols_per_group := rfl
  have hstr : g.group_stride = groupWidth (holeBase cfg) cfg.spacing g.cols_per_group +
      gr.gap_size := rfl
  have hnumeq : g.num_groups = groupNum L (holeBase cfg) cfg.spacing gr.gap_size
      g.cols_per_group := rfl
  have htotal := groupMargin_total L (holeBase cfg) cfg.spacing gr.gap_size g.cols_per_group
  rw [← hnumeq, ← hmxeq] at htotal
  have hcolsq : (1 : ℚ) ≤ (g.cols_per_group : ℚ) := by
    have : (1 : ℕ) ≤ g.cols_per_group := by omega
    exact_mod_cast this
  have hgw0 : 0 ≤ groupWidth (holeBase cfg) cfg.spacing g.cols_per_group := by
    unfold groupWidth
    nlinarith
  have hstr0 : 0 ≤ g.group_stride := by
    rw [hstr]
    linarith
  have hgiq : (gi : ℚ) ≤ (g.num_groups : ℚ) - 1 := by
    have h1 : (gi : ℤ) ≤ g.num_groups - 1 := by omega
    have h2 : ((gi : ℤ) : ℚ) ≤ ((g.num_groups - 1 : ℤ) : ℚ) := by exact_mod_cast h1
    push_cast at h2 ⊢
    linarith
  have hcq : (c : ℚ) ≤ (g.cols_per_group : ℚ) - 1 := by
    have h1 : (c : ℤ) ≤ (g.cols_per_group : ℤ) - 1 := by omega
    have h2 : ((c : ℤ) : ℚ) ≤ (((g.cols_per_group : ℤ) - 1 : ℤ) : ℚ) := by exact_mod_cast h1
    push_cast at h2 ⊢
    linarith
  have hrowq : (row : ℚ) ≤ (g.count_y : ℚ) - 1 := by
    have h1 : (row : ℤ) ≤ g.count_y - 1 := by omega
    have h2 : ((row : ℤ) : ℚ) ≤ ((g.count_y - 1 : ℤ) : ℚ) := by exact_mod_cast h1
    push_cast at h2 ⊢
    linarith
  have hgimul : (gi : ℚ) * g.group_stride ≤ ((g.num_groups : ℚ) - 1) * g.group_stride :=
    mul_le_mul_of_nonneg_right hgiq hstr0
  have hpx0 : 0 ≤ g.pitch_x := by
    rw [hpx_eq]
    linarith
  have hcmul : (c : ℚ) * g.pitch_x ≤ ((g.cols_per_group : ℚ) - 1) * g.pitch_x :=
    mul_le_mul_of_nonneg_right hcq hpx0
  have hgipos : 0 ≤ (gi : ℚ) * g.group_stride :=
    mul_nonneg (Nat.cast_nonneg gi) hstr0
  have hcpos : 0 ≤ (c : ℚ) * g.pitch_x :=
    mul_nonneg (Nat.cast_nonneg c) hpx0
  have hrpos : 0 ≤ (row : ℚ) * g.pitch_y :=
    mul_nonneg (Nat.cast_nonneg row) hpy'.le
  have hrmul : (row : ℚ) * g.pitch_y ≤ ((g.count_y : ℚ) - 1) * g.pitch_y :=
    mul_le_mul_of_nonneg_right hrowq hpy'.le
  have hgwdef : groupWidth (holeBase cfg) cfg.spacing g.cols_per_group =
      (g.cols_per_group : ℚ) * holeBase cfg + ((g.cols_per_group : ℚ) - 1) * cfg.spacing :=
    rfl
  have hT : (TARGET_MIN_MARGIN : ℚ) = 17 := rfl
  refine ⟨?_, ?_, ?_, ?_⟩
  · show 0 ≤ g.margin_x + (gi : ℚ) * g.group_stride + (c : ℚ) * g.pitch_x
    linarith
  · show g.margin_x + (gi : ℚ) * g.group_stride + (c : ℚ) * g.pitch_x + holeW cfg s2 ≤ L
    rw [hhw, hstr, hpx_eq, hgwdef]
    rw [hgwdef] at htotal
    rw [hstr, hgwdef] at hgimul
    rw [hpx_eq] at hcmul
    linarith
  · show 0 ≤ g.margin_y + (row : ℚ) * g.pitch_y
    linarith [hmy, hT.ge]
  · show g.margin_y + (row : ℚ) * g.pitch_y + holeH cfg s2 ≤ W
    rw [hhh, hbase10]
    have h17 : (17 : ℚ) ≤ g.margin_y := by
      rw [hT] at hmy
      exact hmy
    linarith

/- ===================== claim theorems ===================== -/

/-- C1 (amended): in the standard drawing path every emitted shape lies entirely
inside the sheet rectangle; in the grouped drawing path this holds provided the
computed grouped x margin is nonnegative. The unconditional claim fails in the
grouped path, which performs no boundary check. -/
theorem c1_shapes_inside (cfg : PatternConfig) (L W s2 : ℚ) (hok : ConfigOK cfg)
    (hs2 : 1 ≤ s2) :
    (cfg.grouping = none → ∀ s ∈ emittedShapes cfg L W s2, insideSheet L W s) ∧
    (∀ gr : Grouping, cfg.grouping = some gr →
      0 ≤ (groupedLayoutOf L W (holeBase cfg) cfg.spacing gr
          (pitchXOf cfg.pattern (holeBase cfg) cfg.spacing s2)
          (pitchYOf cfg.pattern (holeBase cfg) cfg.spacing s2)).margin_x →
      ∀ s ∈ emittedShapes cfg L W s2, insideSheet L W s) := by
  constructor
  · intro hng s hs
    obtain ⟨⟨h1, h2, h3, h4⟩, hmx, hmy⟩ := std_shape_bounds cfg L W s2 hok hs2 hng s hs
    have hT : (TARGET_MIN_MARGIN : ℚ) = 17 := rfl
    rw [hT] at hmx hmy
    exact ⟨by linarith, by linarith, by linarith, by linarith⟩
  · intro gr hg hm0
    exact grouped_shape_bounds cfg L W s2 hok hs2 gr hg hm0

set_option maxRecDepth 4000 in
/-- C1 counterexample: for the grouped preset on a 100 by 300 sheet the drawing
loop emits a shape whose box starts left of the sheet edge. -/
theorem c1_shapes_inside_cex :
    ∃ s ∈ emittedShapes squaresGroupedCfg 100 300 sqrtTwoFloat,
      s.x < 0 ∧ ¬ insideSheet 100 300 s := by
  with_unfolding_all decide

/-- C1 witness at the grouped preset on a 500 by 300 sheet. -/
theorem c1_shapes_inside_witness :
    ConfigOK squaresGroupedCfg ∧ (1 : ℚ) ≤ sqrtTwoFloat ∧
    (0 : ℚ) ≤ (groupedLayoutOf 500 300 (holeBase squaresGroupedCfg) squaresGroupedCfg.spacing
      ⟨8, 70⟩ (pitchXOf squaresGroupedCfg.pattern (holeBase squaresGroupedCfg)
        squaresGroupedCfg.spacing sqrtTwoFloat)
      (pitchYOf squaresGroupedCfg.pattern (holeBase squaresGroupedCfg)
        squaresGroupedCfg.spacing sqrtTwoFloat)).margin_x ∧
    (∀ s ∈ emittedShapes squaresGroupedCfg 500 300 sqrtTwoFloat,
      insideSheet 500 300 s) :=
  ⟨by with_unfolding_all decide, by with_unfolding_all decide,
   by with_unfolding_all decide,
   (c1_shapes_inside squaresGroupedCfg 500 300 sqrtTwoFloat
      (by with_unfolding_all decide) (by with_unfolding_all decide)).2
     ⟨8, 70⟩ rfl (by with_unfolding_all decide)⟩

/-- C2 (amended): on the standard path each axis with count at least one has a
margin of at least 17; on the grouped x axis the floor is 20 and only holds when
some column count in the searched range 8 to 99 reaches a margin of at least 20.
The unconditional claim fails: the fallback result of the grouped search can
have a margin below 17 although a column count below the searched range keeps
the margin safe. -/
theorem c2_margin_floor (pt : String) (item spacing s2 L W px py : ℚ)
    (hi : 0 < item) (hsp : 0 < spacing) (hs2 : 1 ≤ s2) :
    (1 ≤ (stdLayoutOf L W item spacing pt s2).count_x →
      TARGET_MIN_MARGIN ≤ (stdLayoutOf L W item spacing pt s2).margin_x) ∧
    (1 ≤ (stdLayoutOf L W item spacing pt s2).count_y →
      TARGET_MIN_MARGIN ≤ (stdLayoutOf L W item spacing pt s2).margin_y) ∧
    ((∃ c ∈ List.range' 8 92, 20 ≤ groupMargin L 10 10 70 c) →
      20 ≤ (groupedLayoutOf L W 10 10 ⟨8, 70⟩ px py).margin_x) := by
  refine ⟨std_margin_x_ge L W item spacing pt s2 (pitchXOf_pos hi hsp hs2),
    std_margin_y_ge L W item spacing pt s2 (pitchYOf_pos hi hsp hs2), ?_⟩
  intro hex
  have hfound := gsAux_found_of_exists L (List.range' 8 92) ⟨8, 9999, false⟩ hex
  obtain ⟨hbm, h20, -, -⟩ := (groupBestCol_ginv L).1 hfound
  show 20 ≤ groupMargin L 10 10 70 (groupBestCol L 10 10 70)
  unfold groupBestCol
  rw [← hbm]
  exact h20

set_option maxRecDepth 4000 in
/-- C2 counterexample: on a 160 by 300 sheet the grouped solve returns one
group of eight columns with margin 5, below 17, although a single column per
group would give margin 35, at or above the minimum. -/
theorem c2_margin_floor_cex :
    1 ≤ (groupedLayoutOf 160 300 10 10 ⟨8, 70⟩ 20 20).num_groups ∧
    8 ≤ (groupedLayoutOf 160 300 10 10 ⟨8, 70⟩ 20 20).cols_per_group ∧
    (groupedLayoutOf 160 300 10 10 ⟨8, 70⟩ 20 20).margin_x = 5 ∧
    (groupedLayoutOf 160 300 10 10 ⟨8, 70⟩ 20 20).margin_x < TARGET_MIN_MARGIN ∧
    TARGET_MIN_MARGIN ≤ groupMargin 160 10 10 70 1 := by
  with_unfolding_all decide

/-- C2 witness on a 500 by 300 sheet. -/
theorem c2_margin_floor_witness :
    (0 : ℚ) < 10 ∧ (1 : ℚ) ≤ sqrtTwoFloat ∧
    (∃ c ∈ List.range' 8 92, 20 ≤ groupMargin 500 10 10 70 c) ∧
    ((1 ≤ (stdLayoutOf 500 300 10 10 "square" sqrtTwoFloat).count_x →
      TARGET_MIN_MARGIN ≤ (stdLayoutOf 500 300 10 10 "square" sqrtTwoFloat).margin_x) ∧
    (1 ≤ (stdLayoutOf 500 300 10 10 "square" sqrtTwoFloat).count_y →
      TARGET_MIN_MARGIN ≤ (stdLayoutOf 500 300 10 10 "square" sqrtTwoFloat).margin_y) ∧
    ((∃ c ∈ List.range' 8 92, 20 ≤ groupMargin 500 10 10 70 c) →
      20 ≤ (groupedLayoutOf 500 300 10 10 ⟨8, 70⟩ 20 20).margin_x)) :=
  ⟨by norm_num, by with_unfolding_all decide, by with_unfolding_all decide,
   c2_margin_floor "square" 10 10 sqrtTwoFloat 500 300 20 20 (by norm_num) (by norm_num)
     (by with_unfolding_all decide)⟩

/-- C3 (amended): the engine never returns a typed failure. It is a total
function into numeric layout records, and on the y axis it returns count zero,
with the margin formula still evaluated at that degenerate count, exactly when
no count of at least one keeps the margin at or above the minimum. The caller
is handed this numeric record rather than a SolverFailure value. -/
theorem c3_no_typed_failure (L W item spacing : ℚ) (pt : String) (s2 : ℚ)
    (hi : 0 < item) (hsp : 0 < spacing) (hs2 : 1 ≤ s2) :
    calculate_layout_params L W item spacing pt none s2 =
      .std (stdLayoutOf L W item spacing pt s2) ∧
    ((stdLayoutOf L W item spacing pt s2).count_y = 0 ↔
      ∀ cnt : ℤ, 1 ≤ cnt →
        (W - (itemHOf pt item s2 + ((cnt : ℚ) - 1) * pitchYOf pt item spacing s2)) / 2 <
          TARGET_MIN_MARGIN) := by
  refine ⟨rfl, ?_⟩
  have hpy := @pitchYOf_pos pt item spacing s2 hi hsp hs2
  have hT : (TARGET_MIN_MARGIN : ℚ) = 17 := rfl
  rw [stdLayoutOf_count_y]
  constructor
  · intro h0 cnt hcnt
    by_cases h : W - 2 * TARGET_MIN_MARGIN - itemHOf pt item s2 < 0
    · have hc1 : (0 : ℚ) ≤ ((cnt : ℚ) - 1) * pitchYOf pt item spacing s2 := by
        apply mul_nonneg _ hpy.le
        have h1 : (1 : ℚ) ≤ (cnt : ℚ) := by exact_mod_cast hcnt
        linarith
      rw [hT] at h ⊢
      linarith
    · rw [if_neg h] at h0
      push_neg at h
      have hfl : (0 : ℤ) ≤ ⌊(W - 2 * TARGET_MIN_MARGIN - itemHOf pt item s2) /
          pitchYOf pt item spacing s2⌋ :=
        Int.floor_nonneg.mpr (div_nonneg h hpy.le)
      omega
  · intro hall
    have h1 := hall 1 (le_refl 1)
    rw [if_pos ?hcond]
    case hcond =>
      push_cast at h1
      rw [hT] at h1 ⊢
      linarith

/-- C3 counterexample: on a 500 by 20 sheet, where no count of at least one
keeps the y margin safe, the engine returns the plain numeric record with
count zero and margin 15 instead of a SolverFailure value; the degenerate
result, not the caller, decides the fallback. -/
theorem c3_no_typed_failure_cex :
    calculate_layout_params 500 20 10 10 "square" none sqrtTwoFloat =
      .std ⟨23, 0, 20, 20, 20, 15⟩ := by
  with_unfolding_all decide

/-- C3 witness on a 500 by 20 sheet. -/
theorem c3_no_typed_failure_witness :
    (0 : ℚ) < 10 ∧ (1 : ℚ) ≤ sqrtTwoFloat ∧
    (calculate_layout_params 500 20 10 10 "square" none sqrtTwoFloat =
      .std (stdLayoutOf 500 20 10 10 "square" sqrtTwoFloat) ∧
    ((stdLayoutOf 500 20 10 10 "square" sqrtTwoFloat).count_y = 0 ↔
      ∀ cnt : ℤ, 1 ≤ cnt →
        (20 - (itemHOf "square" 10 sqrtTwoFloat +
          ((cnt : ℚ) - 1) * pitchYOf "square" 10 10 sqrtTwoFloat)) / 2 <
          TARGET_MIN_MARGIN)) :=
  ⟨by norm_num, by with_unfolding_all decide,
   c3_no_typed_failure 500 20 10 10 "square" sqrtTwoFloat (by norm_num) (by norm_num)
     (by with_unfolding_all decide)⟩

/-- C5 (amended): the degenerate single item case holds as claimed on the y
axis: a sheet width of exactly the item height plus twice the minimum margin
yields one row at margin 17. On the x axis the solver always reserves the
half-pitch stagger allowance, so the degenerate width there is the bounding
size plus the stagger allowance plus twice the minimum margin; at the width
the claim names, the item size plus twice the minimum margin, the x count is
zero, not one. -/
theorem c5_degenerate_axis (L W item spacing : ℚ) (pt : String) (s2 : ℚ)
    (hi : 0 < item) (hsp : 0 < spacing) (hs2 : 1 ≤ s2) :
    (W = itemHOf pt item s2 + 2 * TARGET_MIN_MARGIN →
      (stdLayoutOf L W item spacing pt s2).count_y = 1 ∧
      (stdLayoutOf L W item spacing pt s2).margin_y = TARGET_MIN_MARGIN) ∧
    (L = boundingSizeOf pt item s2 + staggerXOf pt item spacing s2 +
        2 * TARGET_MIN_MARGIN →
      (stdLayoutOf L W item spacing pt s2).count_x = 1 ∧
      (stdLayoutOf L W item spacing pt s2).margin_x = TARGET_MIN_MARGIN) := by
  constructor
  · intro hW
    have hsafe : W - 2 * TARGET_MIN_MARGIN - itemHOf pt item s2 = 0 := by
      rw [hW]
      ring
    have hcy : (stdLayoutOf L W item spacing pt s2).count_y = 1 := by
      rw [stdLayoutOf_count_y, hsafe]
      rw [if_neg (lt_irrefl 0)]
      simp
    refine ⟨hcy, ?_⟩
    rw [stdLayoutOf_margin_y, hcy, hW]
    push_cast
    ring
  · intro hL
    have hsafe : L - 2 * TARGET_MIN_MARGIN - boundingSizeOf pt item s2 -
        staggerXOf pt item spacing s2 = 0 := by
      rw [hL]
      ring
    have hcx : (stdLayoutOf L W item spacing pt s2).count_x = 1 := by
      rw [stdLayoutOf_count_x, hsafe]
      rw [if_neg (lt_irrefl 0)]
      simp
    refine ⟨hcx, ?_⟩
    rw [stdLayoutOf_margin_x, hcx, hL]
    push_cast
    ring

/-- C5 counterexample: for a square of size 10 the claimed degenerate sheet
length, the item size plus twice the minimum margin, gives count zero and
margin 22 on the x axis, not count one and margin 17. -/
theorem c5_degenerate_axis_cex :
    (44 : ℚ) = 10 + 2 * TARGET_MIN_MARGIN ∧
    (stdLayoutOf 44 300 10 10 "square" sqrtTwoFloat).count_x = 0 ∧
    (stdLayoutOf 44 300 10 10 "square" sqrtTwoFloat).margin_x = 22 := by
  with_unfolding_all decide

/-- C5 witness: width 44 on the y axis and length 54 on the x axis of the
square preset. -/
theorem c5_degenerate_axis_witness :
    (44 : ℚ) = itemHOf "square" 10 sqrtTwoFloat + 2 * TARGET_MIN_MARGIN ∧
    (54 : ℚ) = boundingSizeOf "square" 10 sqrtTwoFloat +
      staggerXOf "square" 10 10 sqrtTwoFloat + 2 * TARGET_MIN_MARGIN ∧
    ((stdLayoutOf 54 44 10 10 "square" sqrtTwoFloat).count_y = 1 ∧
      (stdLayoutOf 54 44 10 10 "square" sqrtTwoFloat).margin_y = TARGET_MIN_MARGIN) ∧
    ((stdLayoutOf 54 44 10 10 "square" sqrtTwoFloat).count_x = 1 ∧
      (stdLayoutOf 54 44 10 10 "square" sqrtTwoFloat).margin_x = TARGET_MIN_MARGIN) :=
  ⟨by with_unfolding_all decide, by with_unfolding_all decide,
   (c5_degenerate_axis 54 44 10 10 "square" sqrtTwoFloat (by norm_num) (by norm_num)
      (by with_unfolding_all decide)).1 (by with_unfolding_all decide),
   (c5_degenerate_axis 54 44 10 10 "square" sqrtTwoFloat (by norm_num) (by norm_num)
      (by with_unfolding_all decide)).2 (by with_unfolding_all decide)⟩

lemma count_formula_mono {a b p : ℚ} (hp : 0 < p) (hab : a ≤ b) :
    (if a < 0 then 0 else ⌊a / p⌋ + 1 : ℤ) ≤ (if b < 0 then 0 else ⌊b / p⌋ + 1) := by
  by_cases ha : a < 0
  · rw [if_pos ha]
    by_cases hb : b < 0
    · rw [if_pos hb]
    · rw [if_neg hb]
      push_neg at hb
      have := Int.floor_nonneg.mpr (div_nonneg hb hp.le)
      omega
  · push_neg at ha
    rw [if_neg (not_lt.mpr ha), if_neg (not_lt.mpr (ha.trans hab))]
    have hdiv : a / p ≤ b / p := by gcongr
    have := Int.floor_le_floor hdiv
    omega

/-- C8 (confirmed): holding the item size, spacing and pattern fixed, enlarging
the sheet along an axis never decreases the count returned for that axis. -/
theorem c8_count_monotone (pt : String) (item spacing s2 L L' W W' : ℚ)
    (hi : 0 < item) (hsp : 0 < spacing) (hs2 : 1 ≤ s2)
    (hL : L ≤ L') (hW : W ≤ W') :
    (stdLayoutOf L W item spacing pt s2).count_x ≤
      (stdLayoutOf L' W' item spacing pt s2).count_x ∧
    (stdLayoutOf L W item spacing pt s2).count_y ≤
      (stdLayoutOf L' W' item spacing pt s2).count_y := by
  constructor
  · rw [stdLayoutOf_count_x, stdLayoutOf_count_x]
    exact count_formula_mono (pitchXOf_pos hi hsp hs2) (by linarith)
  · rw [stdLayoutOf_count_y, stdLayoutOf_count_y]
    exact count_formula_mono (pitchYOf_pos hi hsp hs2) (by linarith)

/-- C8 witness: lengthening a 500 by 300 sheet to 600 by 340. -/
theorem c8_count_monotone_witness :
    (0 : ℚ) < 10 ∧ (500 : ℚ) ≤ 600 ∧ (300 : ℚ) ≤ 340 ∧
    ((stdLayoutOf 500 300 10 10 "square" sqrtTwoFloat).count_x ≤
      (stdLayoutOf 600 340 10 10 "square" sqrtTwoFloat).count_x ∧
    (stdLayoutOf 500 300 10 10 "square" sqrtTwoFloat).count_y ≤
      (stdLayoutOf 600 340 10 10 "square" sqrtTwoFloat).count_y) :=
  ⟨by norm_num, by norm_num, by norm_num,
   c8_count_monotone "square" 10 10 sqrtTwoFloat 500 600 300 340 (by norm_num)
     (by norm_num) (by with_unfolding_all decide) (by norm_num) (by norm_num)⟩

/-- C9 (amended): the shape mapping is total but never fails. A pattern name
absent from PATTERN_MAP resolves to the default squares preset, and inside the
layout computation any pattern kind other than diamond or slot follows exactly
the square code path; no UnsupportedShapeKind failure exists anywhere. -/
theorem c9_unknown_kind_uses_default (name pt : String) (L W item spacing s2 : ℚ)
    (hname : ∀ p ∈ PATTERN_MAP, p.1 ≠ name)
    (hpt1 : pt ≠ "diamond") (hpt2 : pt ≠ "slot") :
    resolveConfig name = squares10Cfg ∧
    calculate_layout_params L W item spacing pt none s2 =
      calculate_layout_params L W item spacing "square" none s2 := by
  constructor
  · unfold resolveConfig
    have hfind : PATTERN_MAP.find? (fun p => p.1 = name) = none := by
      rw [List.find?_eq_none]
      intro x hx
      simp only [decide_eq_true_eq]
      exact hname x hx
    rw [hfind]
    rfl
  · simp [calculate_layout_params, stdLayoutOf, pitchXOf, pitchYOf, staggerXOf,
      boundingSizeOf, itemHOf, hpt1, hpt2]

/-- C9 counterexample: an unknown pattern name resolves to the squares preset
and an unknown kind string produces the square numeric layout, instead of any
UnsupportedShapeKind failure. -/
theorem c9_unknown_kind_uses_default_cex :
    resolveConfig "Hexagons 12mm" = squares10Cfg ∧
    calculate_layout_params 500 300 10 10 "hexagon" none sqrtTwoFloat =
      .std ⟨23, 13, 20, 20, 20, 25⟩ := by
  with_unfolding_all decide

/-- C9 witness at the unknown name Hexagons 12mm and unknown kind hexagon. -/
theorem c9_unknown_kind_uses_default_witness :
    (∀ p ∈ PATTERN_MAP, p.1 ≠ "Hexagons 12mm") ∧
    (resolveConfig "Hexagons 12mm" = squares10Cfg ∧
    calculate_layout_params 500 300 10 10 "hexagon" none sqrtTwoFloat =
      calculate_layout_params 500 300 10 10 "square" none sqrtTwoFloat) :=
  ⟨by with_unfolding_all decide,
   c9_unknown_kind_uses_default "Hexagons 12mm" "hexagon" 500 300 10 10 sqrtTwoFloat
     (by with_unfolding_all decide) (by with_unfolding_all decide)
     (by with_unfolding_all decide)⟩

/-- C10 (confirmed): the layout parameters a request computes do not depend on
the offset mode, which calculate_layout_params never receives, and the x axis
pattern width inside the margin formula always reserves the half-pitch stagger
allowance, whether or not any row is ever staggered. -/
theorem c10_offset_independent (cfg : PatternConfig) (o' : String) (L W s2 : ℚ)
    (hng : cfg.grouping = none) :
    layoutFor { cfg with offset := o' } L W s2 = layoutFor cfg L W s2 ∧
    layoutFor cfg L W s2 =
      .std (stdLayoutOf L W (holeBase cfg) cfg.spacing cfg.pattern s2) ∧
    (stdLayoutOf L W (holeBase cfg) cfg.spacing cfg.pattern s2).margin_x =
      (L - (boundingSizeOf cfg.pattern (holeBase cfg) s2 +
        (((stdLayoutOf L W (holeBase cfg) cfg.spacing cfg.pattern s2).count_x : ℚ) - 1) *
          pitchXOf cfg.pattern (holeBase cfg) cfg.spacing s2 +
        pitchXOf cfg.pattern (holeBase cfg) cfg.spacing s2 / 2)) / 2 := by
  refine ⟨rfl, ?_, stdLayoutOf_margin_x L W (holeBase cfg) cfg.spacing cfg.pattern s2⟩
  unfold layoutFor calculate_layout_params
  rw [hng]

/-- C10 witness at the squares preset. -/
theorem c10_offset_independent_witness :
    squares10Cfg.grouping = none ∧
    (layoutFor { squares10Cfg with offset := "none" } 500 300 sqrtTwoFloat =
      layoutFor squares10Cfg 500 300 sqrtTwoFloat ∧
    layoutFor squares10Cfg 500 300 sqrtTwoFloat =
      .std (stdLayoutOf 500 300 (holeBase squares10Cfg) squares10Cfg.spacing
        squares10Cfg.pattern sqrtTwoFloat) ∧
    (stdLayoutOf 500 300 (holeBase squares10Cfg) squares10Cfg.spacing
        squares10Cfg.pattern sqrtTwoFloat).margin_x =
      (500 - (boundingSizeOf squares10Cfg.pattern (holeBase squares10Cfg) sqrtTwoFloat +
        (((stdLayoutOf 500 300 (holeBase squares10Cfg) squares10Cfg.spacing
            squares10Cfg.pattern sqrtTwoFloat).count_x : ℚ) - 1) *
          pitchXOf squares10Cfg.pattern (holeBase squares10Cfg) squares10Cfg.spacing
            sqrtTwoFloat +
        pitchXOf squares10Cfg.pattern (holeBase squares10Cfg) squares10Cfg.spacing
          sqrtTwoFloat / 2)) / 2) :=
  ⟨rfl, c10_offset_independent squares10Cfg "none" 500 300 sqrtTwoFloat rfl⟩

/-- The boundary check of line 319 never fires: every column of every row ends
at least one margin short of the right sheet edge. -/
lemma std_guard_passes (cfg : PatternConfig) (L W s2 : ℚ) (hok : ConfigOK cfg)
    (hs2 : 1 ≤ s2) (row c : ℕ)
    (hc : c < (stdLayoutOf L W (holeBase cfg) cfg.spacing cfg.pattern s2).count_x.toNat) :
    (stdLayoutOf L W (holeBase cfg) cfg.spacing cfg.pattern s2).margin_x +
      rowOffset cfg.offset (stdLayoutOf L W (holeBase cfg) cfg.spacing cfg.pattern s2).pitch_x
        row +
      (c : ℚ) * (stdLayoutOf L W (holeBase cfg) cfg.spacing cfg.pattern s2).pitch_x +
      holeW cfg s2 ≤
      L - (stdLayoutOf L W (holeBase cfg) cfg.spacing cfg.pattern s2).margin_x := by
  obtain ⟨hi, hsp, hpat, hslot, hgr⟩ := hok
  have hpx := @pitchXOf_pos cfg.pattern (holeBase cfg) cfg.spacing s2 hi hsp hs2
  set l := stdLayoutOf L W (holeBase cfg) cfg.spacing cfg.pattern s2 with hl
  have hcx1 : 1 ≤ l.count_x := by omega
  have hpx' : 0 < l.pitch_x := hpx
  have hro0 : 0 ≤ rowOffset cfg.offset l.pitch_x row := rowOffset_nonneg hpx'.le row
  have hro2 : rowOffset cfg.offset l.pitch_x row ≤ l.pitch_x / 2 := rowOffset_le hpx'.le row
  have hcq : (c : ℚ) ≤ (l.count_x : ℚ) - 1 := by
    have h1 : (c : ℤ) ≤ l.count_x - 1 := by omega
    have h2 : ((c : ℤ) : ℚ) ≤ ((l.count_x - 1 : ℤ) : ℚ) := by exact_mod_cast h1
    push_cast at h2 ⊢
    linarith
  have hw_eq : holeW cfg s2 = boundingSizeOf cfg.pattern (holeBase cfg) s2 :=
    holeW_eq_bounding ⟨hi, hsp, hpat, hslot, hgr⟩
  have hcmul : (c : ℚ) * l.pitch_x ≤ ((l.count_x : ℚ) - 1) * l.pitch_x :=
    mul_le_mul_of_nonneg_right hcq hpx'.le
  have hmxeq' : l.margin_x = (L - (boundingSizeOf cfg.pattern (holeBase cfg) s2 +
      ((l.count_x : ℚ) - 1) * l.pitch_x + l.pitch_x / 2)) / 2 :=
    stdLayoutOf_margin_x L W (holeBase cfg) cfg.spacing cfg.pattern s2
  rw [hw_eq]
  linarith

/-- C7 (amended): a staggered row keeps the full base count for every shape
kind. The boundary check is the only mechanism that could drop a column, and
it never fires, so each row of the standard path, offset or not, emits exactly
count underscore x shapes; diamond and slot rows are not shortened. -/
theorem c7_staggered_rows_keep_count (cfg : PatternConfig) (L W s2 : ℚ)
    (hok : ConfigOK cfg) (hs2 : 1 ≤ s2) (row : ℕ) :
    (rowShapesStd cfg.offset cfg.pattern
      (stdLayoutOf L W (holeBase cfg) cfg.spacing cfg.pattern s2) L
      (holeW cfg s2) (holeH cfg s2) row).length =
    (stdLayoutOf L W (holeBase cfg) cfg.spacing cfg.pattern s2).count_x.toNat := by
  obtain ⟨hi, hsp, hpat, hslot, hgr⟩ := hok
  set l := stdLayoutOf L W (holeBase cfg) cfg.spacing cfg.pattern s2 with hl
  unfold rowShapesStd
  rw [length_filterMap_of_isSome, List.length_range]
  intro c hc
  rw [List.mem_range] at hc
  have hguard := std_guard_passes cfg L W s2 ⟨hi, hsp, hpat, hslot, hgr⟩ hs2 row c hc
  rw [← hl] at hguard
  have hmx : TARGET_MIN_MARGIN ≤ l.margin_x := by
    have hpx := @pitchXOf_pos cfg.pattern (holeBase cfg) cfg.spacing s2 hi hsp hs2
    have hcx1 : 1 ≤ l.count_x := by omega
    exact std_margin_x_ge L W (holeBase cfg) cfg.spacing cfg.pattern s2 hpx hcx1
  have hT : (TARGET_MIN_MARGIN : ℚ) = 17 := rfl
  rw [if_neg (not_lt.mpr (by rw [hT] at hmx; linarith)), if_pos hpat]
  rfl

set_option maxRecDepth 4000 in
/-- C7 counterexample: for the diamond preset on a 120 by 80 sheet, row one is
staggered by half a pitch yet still holds all three columns, not two as the
claim requires for diamond patterns. -/
theorem c7_staggered_rows_keep_count_cex :
    check10Cfg.pattern = "diamond" ∧
    0 < rowOffset check10Cfg.offset
      (stdLayoutOf 120 80 (holeBase check10Cfg) check10Cfg.spacing check10Cfg.pattern
        sqrtTwoFloat).pitch_x 1 ∧
    (stdLayoutOf 120 80 (holeBase check10Cfg) check10Cfg.spacing check10Cfg.pattern
      sqrtTwoFloat).count_x = 3 ∧
    (rowShapesStd check10Cfg.offset check10Cfg.pattern
      (stdLayoutOf 120 80 (holeBase check10Cfg) check10Cfg.spacing check10Cfg.pattern
        sqrtTwoFloat) 120
      (holeW check10Cfg sqrtTwoFloat) (holeH check10Cfg sqrtTwoFloat) 1).length = 3 := by
  with_unfolding_all decide

/-- C7 witness at the slot preset, row one of a 500 by 300 sheet. -/
theorem c7_staggered_rows_keep_count_witness :
    ConfigOK slot35Cfg ∧ (1 : ℚ) ≤ sqrtTwoFloat ∧
    (rowShapesStd slot35Cfg.offset slot35Cfg.pattern
      (stdLayoutOf 500 300 (holeBase slot35Cfg) slot35Cfg.spacing slot35Cfg.pattern
        sqrtTwoFloat) 500
      (holeW slot35Cfg sqrtTwoFloat) (holeH slot35Cfg sqrtTwoFloat) 1).length =
    (stdLayoutOf 500 300 (holeBase slot35Cfg) slot35Cfg.spacing slot35Cfg.pattern
      sqrtTwoFloat).count_x.toNat :=
  ⟨by with_unfolding_all decide, by with_unfolding_all decide,
   c7_staggered_rows_keep_count slot35Cfg 500 300 sqrtTwoFloat
     (by with_unfolding_all decide) (by with_unfolding_all decide) 1⟩

/-- C4 (amended): for every axis with count at least one the pattern block,
stagger allowance included on x, fits inside the sheet, and every emitted
shape lies between the computed margins. The drawn top and bottom margins are
exactly equal whenever any shape is drawn. The drawn left and right margins
are equal only when a staggered row is actually drawn, that is when the offset
mode is half and at least two rows exist; with a single row the right drawn
margin exceeds the left one by half a pitch, even though the x axis count is
not degenerate, which refutes the unconditional claim. -/
theorem c4_centering (cfg : PatternConfig) (L W s2 : ℚ) (hok : ConfigOK cfg)
    (hs2 : 1 ≤ s2) (hng : cfg.grouping = none) :
    (1 ≤ (stdLayoutOf L W (holeBase cfg) cfg.spacing cfg.pattern s2).count_x →
      boundingSizeOf cfg.pattern (holeBase cfg) s2 +
        (((stdLayoutOf L W (holeBase cfg) cfg.spacing cfg.pattern s2).count_x : ℚ) - 1) *
          (stdLayoutOf L W (holeBase cfg) cfg.spacing cfg.pattern s2).pitch_x +
        (stdLayoutOf L W (holeBase cfg) cfg.spacing cfg.pattern s2).pitch_x / 2 ≤ L) ∧
    (1 ≤ (stdLayoutOf L W (holeBase cfg) cfg.spacing cfg.pattern s2).count_y →
      itemHOf cfg.pattern (holeBase cfg) s2 +
        (((stdLayoutOf L W (holeBase cfg) cfg.spacing cfg.pattern s2).count_y : ℚ) - 1) *
          (stdLayoutOf L W (holeBase cfg) cfg.spacing cfg.pattern s2).pitch_y ≤ W) ∧
    (∀ s ∈ emittedShapes cfg L W s2,
      (stdLayoutOf L W (holeBase cfg) cfg.spacing cfg.pattern s2).margin_x ≤ s.x ∧
      s.x + s.w ≤ L - (stdLayoutOf L W (holeBase cfg) cfg.spacing cfg.pattern s2).margin_x ∧
      (stdLayoutOf L W (holeBase cfg) cfg.spacing cfg.pattern s2).margin_y ≤ s.y ∧
      s.y + s.h ≤ W - (stdLayoutOf L W (holeBase cfg) cfg.spacing cfg.pattern s2).margin_y) ∧
    (1 ≤ (stdLayoutOf L W (holeBase cfg) cfg.spacing cfg.pattern s2).count_x →
      1 ≤ (stdLayoutOf L W (holeBase cfg) cfg.spacing cfg.pattern s2).count_y →
      (∃ s ∈ emittedShapes cfg L W s2,
        s.y = (stdLayoutOf L W (holeBase cfg) cfg.spacing cfg.pattern s2).margin_y) ∧
      (∃ s ∈ emittedShapes cfg L W s2,
        s.y + s.h = W - (stdLayoutOf L W (holeBase cfg) cfg.spacing cfg.pattern s2).margin_y)) ∧
    (cfg.offset = "half" →
      1 ≤ (stdLayoutOf L W (holeBase cfg) cfg.spacing cfg.pattern s2).count_x →
      2 ≤ (stdLayoutOf L W (holeBase cfg) cfg.spacing cfg.pattern s2).count_y →
      (∃ s ∈ emittedShapes cfg L W s2,
        s.x = (stdLayoutOf L W (holeBase cfg) cfg.spacing cfg.pattern s2).margin_x) ∧
      (∃ s ∈ emittedShapes cfg L W s2,
        s.x + s.w = L - (stdLayoutOf L W (holeBase cfg) cfg.spacing cfg.pattern s2).margin_x)) := by
  obtain ⟨hi, hsp, hpat, hslot, hgr⟩ := hok
  have hok' : ConfigOK cfg := ⟨hi, hsp, hpat, hslot, hgr⟩
  have hpx := @pitchXOf_pos cfg.pattern (holeBase cfg) cfg.spacing s2 hi hsp hs2
  have hpy := @pitchYOf_pos cfg.pattern (holeBase cfg) cfg.spacing s2 hi hsp hs2
  have hT : (TARGET_MIN_MARGIN : ℚ) = 17 := rfl
  set l := stdLayoutOf L W (holeBase cfg) cfg.spacing cfg.pattern s2 with hl
  have hguard : ∀ row c : ℕ, c < l.count_x.toNat →
      l.margin_x + rowOffset cfg.offset l.pitch_x row + (c : ℚ) * l.pitch_x +
        holeW cfg s2 ≤ L := by
    intro row c hc
    have h1 : l.margin_x + rowOffset cfg.offset l.pitch_x row + (c : ℚ) * l.pitch_x +
        holeW cfg s2 ≤ L - l.margin_x := std_guard_passes cfg L W s2 hok' hs2 row c hc
    have hcx1 : 1 ≤ l.count_x := by omega
    have hmx : TARGET_MIN_MARGIN ≤ l.margin_x :=
      std_margin_x_ge L W (holeBase cfg) cfg.spacing cfg.pattern s2 hpx hcx1
    rw [hT] at hmx
    linarith
  have hmxeq : l.margin_x = (L - (boundingSizeOf cfg.pattern (holeBase cfg) s2 +
      ((l.count_x : ℚ) - 1) * l.pitch_x + l.pitch_x / 2)) / 2 :=
    stdLayoutOf_margin_x L W (holeBase cfg) cfg.spacing cfg.pattern s2
  have hmyeq : l.margin_y = (W - (itemHOf cfg.pattern (holeBase cfg) s2 +
      ((l.count_y : ℚ) - 1) * l.pitch_y)) / 2 :=
    stdLayoutOf_margin_y L W (holeBase cfg) cfg.spacing cfg.pattern s2
  have hw_eq : holeW cfg s2 = boundingSizeOf cfg.pattern (holeBase cfg) s2 :=
    holeW_eq_bounding hok'
  have hh_eq : holeH cfg s2 = itemHOf cfg.pattern (holeBase cfg) s2 :=
    holeH_eq_itemH hok'
  refine ⟨?_, ?_, ?_, ?_, ?_⟩
  · intro hcx
    have h1 : boundingSizeOf cfg.pattern (holeBase cfg) s2 +
        ((l.count_x : ℚ) - 1) * l.pitch_x + l.pitch_x / 2 ≤ L - 2 * TARGET_MIN_MARGIN :=
      std_total_w_le L W (holeBase cfg) cfg.spacing cfg.pattern s2 hpx hcx
    rw [hT] at h1
    linarith
  · intro hcy
    have h1 : itemHOf cfg.pattern (holeBase cfg) s2 +
        ((l.count_y : ℚ) - 1) * l.pitch_y ≤ W - 2 * TARGET_MIN_MARGIN :=
      std_total_h_le L W (holeBase cfg) cfg.spacing cfg.pattern s2 hpy hcy
    rw [hT] at h1
    linarith
  · intro s hs
    exact (std_shape_bounds cfg L W s2 hok' hs2 hng s hs).1
  · intro hcx hcy
    constructor
    · refine ⟨⟨l.margin_x + rowOffset cfg.offset l.pitch_x 0 + ((0 : ℕ) : ℚ) * l.pitch_x,
        l.margin_y + ((0 : ℕ) : ℚ) * l.pitch_y, holeW cfg s2, holeH cfg s2⟩, ?_, by simp⟩
      rw [emittedShapes_std hng, List.mem_flatMap, ← hl]
      refine ⟨0, List.mem_range.mpr (by omega), ?_⟩
      rw [mem_rowShapesStd]
      exact ⟨0, by omega, hguard 0 0 (by omega), hpat, rfl⟩
    · have h1 : 1 ≤ l.count_y.toNat := by omega
      refine ⟨⟨l.margin_x + rowOffset cfg.offset l.pitch_x (l.count_y.toNat - 1) +
        ((0 : ℕ) : ℚ) * l.pitch_x,
        l.margin_y + ((l.count_y.toNat - 1 : ℕ) : ℚ) * l.pitch_y,
        holeW cfg s2, holeH cfg s2⟩, ?_, ?_⟩
      · rw [emittedShapes_std hng, List.mem_flatMap, ← hl]
        refine ⟨l.count_y.toNat - 1, List.mem_range.mpr (by omega), ?_⟩
        rw [mem_rowShapesStd]
        exact ⟨0, by omega, hguard (l.count_y.toNat - 1) 0 (by omega), hpat, rfl⟩
      · show l.margin_y + ((l.count_y.toNat - 1 : ℕ) : ℚ) * l.pitch_y +
          holeH cfg s2 = W - l.margin_y
        have h2 : ((l.count_y.toNat - 1 : ℕ) : ℤ) = l.count_y - 1 := by omega
        have hcast : ((l.count_y.toNat - 1 : ℕ) : ℚ) = (l.count_y : ℚ) - 1 := by
          exact_mod_cast h2
        rw [hh_eq, hcast]
        linarith
  · intro hoff hcx hcy
    have hro00 : rowOffset cfg.offset l.pitch_x 0 = 0 := by
      simp [rowOffset]
    have hro1 : rowOffset cfg.offset l.pitch_x 1 = l.pitch_x / 2 := by
      rw [hoff]
      simp [rowOffset]
    constructor
    · refine ⟨⟨l.margin_x + rowOffset cfg.offset l.pitch_x 0 + ((0 : ℕ) : ℚ) * l.pitch_x,
        l.margin_y + ((0 : ℕ) : ℚ) * l.pitch_y, holeW cfg s2, holeH cfg s2⟩, ?_, ?_⟩
      · rw [emittedShapes_std hng, List.mem_flatMap, ← hl]
        refine ⟨0, List.mem_range.mpr (by omega), ?_⟩
        rw [mem_rowShapesStd]
        exact ⟨0, by omega, hguard 0 0 (by omega), hpat, rfl⟩
      · show l.margin_x + rowOffset cfg.offset l.pitch_x 0 + ((0 : ℕ) : ℚ) * l.pitch_x =
          l.margin_x
        rw [hro00]
        simp
    · have h1 : 1 ≤ l.count_x.toNat := by omega
      refine ⟨⟨l.margin_x + rowOffset cfg.offset l.pitch_x 1 +
        ((l.count_x.toNat - 1 : ℕ) : ℚ) * l.pitch_x,
        l.margin_y + ((1 : ℕ) : ℚ) * l.pitch_y, holeW cfg s2, holeH cfg s2⟩, ?_, ?_⟩
      · rw [emittedShapes_std hng, List.mem_flatMap, ← hl]
        refine ⟨1, List.mem_range.mpr (by omega), ?_⟩
        rw [mem_rowShapesStd]
        exact ⟨l.count_x.toNat - 1, by omega,
          hguard 1 (l.count_x.toNat - 1) (by omega), hpat, rfl⟩
      · show l.margin_x + rowOffset cfg.offset l.pitch_x 1 +
          ((l.count_x.toNat - 1 : ℕ) : ℚ) * l.pitch_x + holeW cfg s2 = L - l.margin_x
        have h2 : ((l.count_x.toNat - 1 : ℕ) : ℤ) = l.count_x - 1 := by omega
        have hcast : ((l.count_x.toNat - 1 : ℕ) : ℚ) = (l.count_x : ℚ) - 1 := by
          exact_mod_cast h2
        rw [hro1, hcast, hw_eq]
        linarith

/-- C4 counterexample: on an 80 by 50 sheet the square preset draws a single
row of two shapes. The x count is 2, not degenerate, yet the drawn left margin
is 20 while the drawn right margin is 30: no shape reaches past 50, so the two
opposite margins differ by the unused stagger allowance. -/
theorem c4_centering_cex :
    (stdLayoutOf 80 50 10 10 "square" sqrtTwoFloat).count_x = 2 ∧
    (stdLayoutOf 80 50 10 10 "square" sqrtTwoFloat).margin_x = 20 ∧
    emittedShapes squares10Cfg 80 50 sqrtTwoFloat =
      [⟨20, 20, 10, 10⟩, ⟨40, 20, 10, 10⟩] ∧
    (∀ s ∈ emittedShapes squares10Cfg 80 50 sqrtTwoFloat, 20 ≤ s.x ∧ s.x + s.w ≤ 50) ∧
    (∃ s ∈ emittedShapes squares10Cfg 80 50 sqrtTwoFloat, s.x = 20) := by
  with_unfolding_all decide

/-- C4 witness at the squares preset on a 500 by 300 sheet. -/
theorem c4_centering_witness :
    ConfigOK squares10Cfg ∧ squares10Cfg.offset = "half" ∧
    1 ≤ (stdLayoutOf 500 300 (holeBase squares10Cfg) squares10Cfg.spacing
      squares10Cfg.pattern sqrtTwoFloat).count_x ∧
    2 ≤ (stdLayoutOf 500 300 (holeBase squares10Cfg) squares10Cfg.spacing
      squares10Cfg.pattern sqrtTwoFloat).count_y ∧
    ((∃ s ∈ emittedShapes squares10Cfg 500 300 sqrtTwoFloat,
        s.x = (stdLayoutOf 500 300 (holeBase squares10Cfg) squares10Cfg.spacing
          squares10Cfg.pattern sqrtTwoFloat).margin_x) ∧
      (∃ s ∈ emittedShapes squares10Cfg 500 300 sqrtTwoFloat,
        s.x + s.w = 500 - (stdLayoutOf 500 300 (holeBase squares10Cfg)
          squares10Cfg.spacing squares10Cfg.pattern sqrtTwoFloat).margin_x)) :=
  ⟨by with_unfolding_all decide, rfl, by with_unfolding_all decide,
   by with_unfolding_all decide,
   (c4_centering squares10Cfg 500 300 sqrtTwoFloat (by with_unfolding_all decide)
      (by with_unfolding_all decide) rfl).2.2.2.2 rfl
     (by with_unfolding_all decide) (by with_unfolding_all decide)⟩

/-- C6 (amended): the grouped solve iterates the column count upward from 8
and stays at most 99, derives the stated width, stride, clamped group count
and margin formulas for the chosen columns, and falls back to 8 columns when
no candidate in the searched range reaches a margin of 20. The returned margin
is closest to the band midpoint 35 among the candidates visited before the
search stops; over the whole range this optimality is guaranteed only when no
candidate dips below 20, because the loop breaks at the first invalid margin
after a valid one, which refutes the unconditional claim. -/
theorem c6_group_search (L W px py : ℚ) :
    (8 ≤ (groupedLayoutOf L W 10 10 ⟨8, 70⟩ px py).cols_per_group ∧
      (groupedLayoutOf L W 10 10 ⟨8, 70⟩ px py).cols_per_group ≤ 99) ∧
    (groupedLayoutOf L W 10 10 ⟨8, 70⟩ px py).group_stride =
      groupWidth 10 10 (groupedLayoutOf L W 10 10 ⟨8, 70⟩ px py).cols_per_group + 70 ∧
    (groupedLayoutOf L W 10 10 ⟨8, 70⟩ px py).num_groups =
      groupNum L 10 10 70 (groupedLayoutOf L W 10 10 ⟨8, 70⟩ px py).cols_per_group ∧
    1 ≤ (groupedLayoutOf L W 10 10 ⟨8, 70⟩ px py).num_groups ∧
    (groupedLayoutOf L W 10 10 ⟨8, 70⟩ px py).margin_x =
      groupMargin L 10 10 70 (groupedLayoutOf L W 10 10 ⟨8, 70⟩ px py).cols_per_group ∧
    ((∀ c ∈ List.range' 8 92, groupMargin L 10 10 70 c < 20) →
      (groupedLayoutOf L W 10 10 ⟨8, 70⟩ px py).cols_per_group = 8) ∧
    ((∀ c ∈ List.range' 8 92, 20 ≤ groupMargin L 10 10 70 c) →
      ∀ c ∈ List.range' 8 92,
        |(groupedLayoutOf L W 10 10 ⟨8, 70⟩ px py).margin_x - 35| ≤
          |groupMargin L 10 10 70 c - 35|) := by
  refine ⟨groupBestCol_bounds L 10 10 70, rfl, rfl,
    groupNum_ge_one L 10 10 70 (groupBestCol L 10 10 70), rfl, ?_, ?_⟩
  · intro hall
    show (groupSearchAux L 10 10 70 (List.range' 8 92) ⟨8, 9999, false⟩).best_col = 8
    rw [gsAux_id_of_invalid L (List.range' 8 92) ⟨8, 9999, false⟩ rfl hall]
  · intro hall c hc
    have h8mem : (8 : ℕ) ∈ List.range' 8 92 := by
      rw [List.mem_range'_1]
      omega
    have h8m := hall 8 h8mem
    have hstep : groupSearchAux L 10 10 70 (List.range' 8 92) ⟨8, 9999, false⟩ =
        groupSearchAux L 10 10 70 (List.range' 9 91)
          ⟨8, groupMargin L 10 10 70 8, true⟩ := by
      rw [show List.range' 8 92 = 8 :: List.range' 9 91 from rfl]
      rw [gsAux_step, if_neg (not_lt.mpr h8m),
        if_pos (abs_margin_lt_init L 8 (le_refl 8) (by norm_num) h8m)]
    have hrest : ∀ x ∈ List.range' 9 91, 20 ≤ groupMargin L 10 10 70 x := by
      intro x hx
      rw [List.mem_range'_1] at hx
      refine hall x ?_
      rw [List.mem_range'_1]
      omega
    have hopt := gsAux_optimal L (List.range' 9 91)
      ⟨8, groupMargin L 10 10 70 8, true⟩ hrest rfl
    have hfound : (groupSearchAux L 10 10 70 (List.range' 8 92)
        ⟨8, 9999, false⟩).found_valid = true := by
      rw [hstep]
      exact gsAux_found_mono L (List.range' 9 91) _ rfl
    obtain ⟨hbm, -, -, -⟩ := (groupBestCol_ginv L).1 hfound
    show |groupMargin L 10 10 70 (groupBestCol L 10 10 70) - 35| ≤
      |groupMargin L 10 10 70 c - 35|
    unfold groupBestCol
    rw [← hbm, hstep]
    rw [List.mem_range'_1] at hc
    by_cases hc8 : c = 8
    · subst hc8
      exact hopt.1
    · refine hopt.2 c ?_
      rw [List.mem_range'_1]
      omega

set_option maxRecDepth 4000 in
/-- C6 counterexample: on a 410 sheet the search accepts 8 columns with margin
20, then breaks at 9 columns whose margin is 0, and returns 8 columns. But 17
columns, inside the iterated range, yields margin 40, which is strictly closer
to the band midpoint 35 and at least the minimum, so the returned column count
is not the closest valid one over all column counts. -/
theorem c6_group_search_cex :
    (groupedLayoutOf 410 300 10 10 ⟨8, 70⟩ 20 20).cols_per_group = 8 ∧
    (groupedLayoutOf 410 300 10 10 ⟨8, 70⟩ 20 20).margin_x = 20 ∧
    (17 : ℕ) ∈ List.range' 8 92 ∧
    20 ≤ groupMargin 410 10 10 70 17 ∧
    |groupMargin 410 10 10 70 17 - 35| <
      |(groupedLayoutOf 410 300 10 10 ⟨8, 70⟩ 20 20).margin_x - 35| := by
  with_unfolding_all decide

set_option maxRecDepth 4000 in
/-- C6 witness: on a 4470 sheet every candidate margin stays at least 20, so
the returned margin is the closest to 35 over the whole searched range. -/
theorem c6_group_search_witness :
    (∀ c ∈ List.range' 8 92, 20 ≤ groupMargin 4470 10 10 70 c) ∧
    (∀ c ∈ List.range' 8 92,
      |(groupedLayoutOf 4470 300 10 10 ⟨8, 70⟩ 20 20).margin_x - 35| ≤
        |groupMargin 4470 10 10 70 c - 35|) :=
  ⟨by with_unfolding_all decide,
   (c6_group_search 4470 300 20 20).2.2.2.2.2.2 (by with_unfolding_all decide)⟩
